import Mathlib

/-!
# ContainerPilot control plane: `control/endpoints.go`

A shallow embedding of the POST adapter (`PostHandler.ServeHTTP`) and of the three
control endpoints (`PutEnviron`, `PostReload`, `PostMetric`), followed by the
properties established about them.

Conventions of the embedding:

* Go strings and request bodies are Lean `String`s: a body is what
  `ioutil.ReadAll` returned, taken to be text (valid UTF-8).
* The library functions the handlers call (`http.Error`, `http.StatusText`,
  `json.Unmarshal`, `fmt.Sprintf`, `os.Setenv`) are modelled after their Go
  implementations; `seed` arguments stand for the unspecified iteration order of
  Go maps; float64 values are exact (`mant * 2 ^ exp`), parsed by correct
  rounding and printed with the shortest digits, as `strconv` does.
* A Go `int` status is an `Int`.
* The process environment and the event bus are threaded explicitly as a `World`.
* The `http.ResponseWriter` is a recorder of what the handler wrote on it.
* The logging calls (`log.Debug`) and the deferred `r.Body.Close()` touch neither
  the response, the environment nor the bus and are not part of the state.
-/

namespace Control

/-! ## net/http: methods, status codes, requests and the response writer -/

/-- Constant `http.MethodPost`. -/
def MethodPost : String := "POST"

/-- Constant `http.StatusOK`. -/
def StatusOK : Int := 200

/-- Constant `http.StatusUnprocessableEntity`. -/
def StatusUnprocessableEntity : Int := 422

/-- Constant `http.StatusNotImplemented`. -/
def StatusNotImplemented : Int := 501

/-- The cases of the switch in `http.StatusText`: the status codes that have a
reason phrase. -/
def statusTexts : List (Int × String) :=
  [(100, "Continue"), (101, "Switching Protocols"), (102, "Processing"), (103, "Early Hints"),
   (200, "OK"), (201, "Created"), (202, "Accepted"), (203, "Non-Authoritative Information"),
   (204, "No Content"), (205, "Reset Content"), (206, "Partial Content"), (207, "Multi-Status"),
   (208, "Already Reported"), (226, "IM Used"), (300, "Multiple Choices"),
   (301, "Moved Permanently"), (302, "Found"), (303, "See Other"), (304, "Not Modified"),
   (305, "Use Proxy"), (307, "Temporary Redirect"), (308, "Permanent Redirect"),
   (400, "Bad Request"), (401, "Unauthorized"), (402, "Payment Required"), (403, "Forbidden"),
   (404, "Not Found"), (405, "Method Not Allowed"), (406, "Not Acceptable"),
   (407, "Proxy Authentication Required"), (408, "Request Timeout"), (409, "Conflict"),
   (410, "Gone"), (411, "Length Required"), (412, "Precondition Failed"),
   (413, "Request Entity Too Large"), (414, "Request URI Too Long"),
   (415, "Unsupported Media Type"), (416, "Requested Range Not Satisfiable"),
   (417, "Expectation Failed"), (418, "I'm a teapot"), (421, "Misdirected Request"),
   (422, "Unprocessable Entity"), (423, "Locked"), (424, "Failed Dependency"),
   (425, "Too Early"), (426, "Upgrade Required"), (428, "Precondition Required"),
   (429, "Too Many Requests"), (431, "Request Header Fields Too Large"),
   (451, "Unavailable For Legal Reasons"), (500, "Internal Server Error"),
   (501, "Not Implemented"), (502, "Bad Gateway"), (503, "Service Unavailable"),
   (504, "Gateway Timeout"), (505, "HTTP Version Not Supported"),
   (506, "Variant Also Negotiates"), (507, "Insufficient Storage"), (508, "Loop Detected"),
   (510, "Not Extended"), (511, "Network Authentication Required")]

/-- Function `http.StatusText`: the reason phrase of a status code, and the empty
string for a code that has none. -/
def StatusText (code : Int) : String :=
  ((statusTexts.find? (fun p => p.1 = code)).map Prod.snd).getD ""

/-- An incoming `*http.Request`, as far as the handlers look at it: the method
and the outcome of `ioutil.ReadAll(r.Body)` (`none` when the read returns an
error). -/
structure Request where
  Method : String
  Body : Option String

/-- The `http.ResponseWriter` the server hands to a handler, as the response the
handler has produced on it so far: the header map, the status code of the
response (`none` while no header was written), the bytes of the body the writer
accepted, the informational (1xx) status lines sent ahead of the response, and
whether a call on the writer panicked, which ends the handler with nothing
further written. -/
structure ResponseWriter where
  header : List (String × String)
  code : Option Int
  body : String
  informational : List Int := []
  panicked : Bool := false
deriving DecidableEq, Repr

/-- Function `bodyAllowedForStatus`: a response with a 1xx, 204 or 304 status has
no body. -/
def bodyAllowedForStatus (status : Int) : Bool :=
  if 100 ≤ status ∧ status ≤ 199 then false
  else if status = 204 then false
  else if status = 304 then false
  else true

namespace ResponseWriter

/-- A writer on which nothing was written yet. -/
def fresh : ResponseWriter := { header := [], code := none, body := "" }

/-- Call `w.Header().Set(key, value)`: the entry replaces an earlier one of the
same key. -/
def SetHeader (w : ResponseWriter) (key value : String) : ResponseWriter :=
  if w.panicked then w
  else { w with header := w.header.filter (fun kv => kv.1 ≠ key) ++ [(key, value)] }

/-- Call `w.WriteHeader(code)`. A call after the header was written is ignored.
Otherwise a code outside 100..999 panics (`checkWriteHeaderCode`); a 1xx code
other than 101 sends an informational status line and leaves the response
header unwritten; any other code becomes the status of the response. -/
def WriteHeader (w : ResponseWriter) (code : Int) : ResponseWriter :=
  if w.panicked then w
  else
    match w.code with
    | some _ => w
    | none =>
      if code < 100 ∨ code > 999 then { w with panicked := true }
      else if code ≤ 199 ∧ code ≠ 101 then
        { w with informational := w.informational ++ [code] }
      else { w with code := some code }

/-- Call `w.Write(data)`: writes the header with status 200 when none was
written, then appends to the body, unless the status allows no body
(`ErrBodyNotAllowed`, an error the callers here drop). -/
def Write (w : ResponseWriter) (data : String) : ResponseWriter :=
  if w.panicked then w
  else
    let w1 := w.WriteHeader StatusOK
    match w1.code with
    | some status =>
      if bodyAllowedForStatus status then { w1 with body := w1.body ++ data } else w1
    | none => w1

end ResponseWriter

/-- Function `http.Error(w, error, code)`: plain-text content type, the status
code, then the message and a newline (`fmt.Fprintln`). -/
def Error (w : ResponseWriter) (error : String) (code : Int) : ResponseWriter :=
  (((w.SetHeader "Content-Type" "text/plain; charset=utf-8").SetHeader
    "X-Content-Type-Options" "nosniff").WriteHeader code).Write (error ++ "\n")

/-- Call `json.NewEncoder(w).Encode(v)`: when `v` marshals the encoder writes its
JSON encoding followed by a newline; when it does not, nothing is written (the
handler drops the error). `marshal` is `json.Marshal` on the payload type. -/
def Encode {α : Type} (marshal : α → Option String) (w : ResponseWriter) (v : α) :
    ResponseWriter :=
  match marshal v with
  | some js => w.Write (js ++ "\n")
  | none => w

/-! ## The POST adapter -/

/-- Type `PostHandler`: `func(*http.Request) (interface{}, int)`. The function may
act on the state `σ` it closes over; the `interface{}` result is `none` for `nil`
and `some v` for a payload `v : α`. -/
abbrev PostHandler (σ α : Type) := Request → σ → (Option α × Int) × σ

/-- Method `PostHandler.ServeHTTP`. -/
def PostHandler.ServeHTTP {σ α : Type} (marshal : α → Option String)
    (pw : PostHandler σ α) (w : ResponseWriter) (r : Request) (s : σ) :
    ResponseWriter × σ :=
  if r.Method ≠ MethodPost then
    let failedStatus := StatusNotImplemented
    (Error w (StatusText failedStatus) failedStatus, s)
  else
    let out := pw r s
    let resp := out.1.1
    let status := out.1.2
    if status = StatusOK then
      match resp with
      | some v =>
        (Encode marshal ((w.SetHeader "Content-Type" "application/json").WriteHeader
          StatusOK) v, out.2)
      | none => (((w.WriteHeader StatusOK).Write "\n"), out.2)
    else
      (Error w (StatusText status) status, out.2)

/-! ## encoding/json: the syntax of JSON texts -/

/-- A parsed JSON value. A number keeps its literal; an object keeps its members
in the order of the text, repeated keys included. -/
inductive JSON where
  | null
  | bool (b : Bool)
  | num (lit : String)
  | str (s : String)
  | arr (xs : List JSON)
  | obj (kvs : List (String × JSON))

/-- The four characters the scanner treats as insignificant space. -/
def isSpace (c : Char) : Bool :=
  c = ' ' || c = '\t' || c = '\r' || c = '\n'

/-- Drop leading insignificant space. -/
def skipSpace : List Char → List Char
  | [] => []
  | c :: cs => if isSpace c then skipSpace cs else c :: cs

/-- Value of a hexadecimal digit. -/
def hexVal (c : Char) : Option Nat :=
  if '0' ≤ c ∧ c ≤ '9' then some (c.toNat - 48)
  else if 'a' ≤ c ∧ c ≤ 'f' then some (c.toNat - 87)
  else if 'A' ≤ c ∧ c ≤ 'F' then some (c.toNat - 55)
  else none

/-- Function `getu4`: the code unit written by the four hex digits of a `\u`
escape. -/
def getu4 (a b c d : Char) : Option Nat :=
  match hexVal a, hexVal b, hexVal c, hexVal d with
  | some x, some y, some z, some t => some (((x * 16 + y) * 16 + z) * 16 + t)
  | _, _, _, _ => none

/-- Rune `unicode.ReplacementChar`. -/
def replacementChar : Char := Char.ofNat 0xFFFD

/-- The character of a one-letter escape. -/
def unescape (e : Char) : Option Char :=
  if e = '"' then some '"'
  else if e = '\\' then some '\\'
  else if e = '/' then some '/'
  else if e = 'b' then some '\x08'
  else if e = 'f' then some '\x0c'
  else if e = 'n' then some '\n'
  else if e = 'r' then some '\r'
  else if e = 't' then some '\t'
  else none

/-- Emit the replacement character for a high surrogate that found no partner. -/
def flushSurrogate (pending : Option Nat) (acc : List Char) : List Char :=
  match pending with
  | some _ => acc ++ [replacementChar]
  | none => acc

/-- Scan a string literal after its opening quote and unquote it (`unquote`):
control characters and unknown escapes are syntax errors; a `\u` escape that is a
high surrogate followed by a low one gives the combined rune, any other surrogate
gives U+FFFD. `pending` is a high surrogate whose partner has not been read yet.
Returns the string and the text after the closing quote. -/
def scanString (pending : Option Nat) (acc : List Char) :
    List Char → Option (String × List Char)
  | [] => none
  | c :: rest =>
    if c = '"' then some (String.mk (flushSurrogate pending acc), rest)
    else if c.toNat < 0x20 then none
    else if c = '\\' then
      match rest with
      | [] => none
      | e :: rest2 =>
        if e = 'u' then
          match rest2 with
          | a :: b :: c2 :: d :: rest3 =>
            match getu4 a b c2 d with
            | none => none
            | some rr =>
              match pending with
              | some hi =>
                if 0xDC00 ≤ rr ∧ rr < 0xE000 then
                  scanString none
                    (acc ++ [Char.ofNat (0x10000 + (hi - 0xD800) * 0x400 + (rr - 0xDC00))])
                    rest3
                else if 0xD800 ≤ rr ∧ rr < 0xDC00 then
                  scanString (some rr) (acc ++ [replacementChar]) rest3
                else
                  scanString none (acc ++ [replacementChar, Char.ofNat rr]) rest3
              | none =>
                if 0xD800 ≤ rr ∧ rr < 0xDC00 then scanString (some rr) acc rest3
                else if 0xDC00 ≤ rr ∧ rr < 0xE000 then
                  scanString none (acc ++ [replacementChar]) rest3
                else scanString none (acc ++ [Char.ofNat rr]) rest3
          | _ => none
        else
          match unescape e with
          | some ch => scanString none (flushSurrogate pending acc ++ [ch]) rest2
          | none => none
    else scanString none (flushSurrogate pending acc ++ [c]) rest

/-- Split off a non-empty run of decimal digits. -/
def scanDigits (cs : List Char) : Option (List Char × List Char) :=
  match cs.span Char.isDigit with
  | ([], _) => none
  | (ds, rest) => some (ds, rest)

/-- Integer part of a number: a single `0`, or a digit `1`-`9` and more digits. -/
def scanInt (cs : List Char) : Option (List Char × List Char) :=
  match cs with
  | [] => none
  | c :: rest =>
    if c = '0' then some (['0'], rest)
    else if '1' ≤ c ∧ c ≤ '9' then
      some (c :: (rest.span Char.isDigit).1, (rest.span Char.isDigit).2)
    else none

/-- Optional fraction of a number: a dot and at least one digit. -/
def scanFrac (cs : List Char) : Option (List Char × List Char) :=
  match cs with
  | c :: rest =>
    if c = '.' then (scanDigits rest).map (fun p => ('.' :: p.1, p.2))
    else some ([], cs)
  | [] => some ([], [])

/-- Optional exponent of a number: `e` or `E`, an optional sign and at least one
digit. -/
def scanExp (cs : List Char) : Option (List Char × List Char) :=
  match cs with
  | c :: rest =>
    if c = 'e' ∨ c = 'E' then
      match rest with
      | s :: rest2 =>
        if s = '+' ∨ s = '-' then (scanDigits rest2).map (fun p => (c :: s :: p.1, p.2))
        else (scanDigits rest).map (fun p => (c :: p.1, p.2))
      | [] => none
    else some ([], cs)
  | [] => some ([], [])

/-- Scan a number literal: optional minus, integer part, fraction, exponent.
Returns the literal and the text after it. -/
def scanNumber (cs : List Char) : Option (String × List Char) :=
  let signed : List Char × List Char :=
    match cs with
    | c :: rest => if c = '-' then (['-'], rest) else ([], cs)
    | [] => ([], [])
  match scanInt signed.2 with
  | none => none
  | some (ip, r1) =>
    match scanFrac r1 with
    | none => none
    | some (fp, r2) =>
      match scanExp r2 with
      | none => none
      | some (ep, r3) => some (String.mk (signed.1 ++ ip ++ fp ++ ep), r3)

/-- Strip the given keyword from the front of the text. -/
def dropWord : List Char → List Char → Option (List Char)
  | [], cs => some cs
  | _ :: _, [] => none
  | x :: xs, c :: cs => if x = c then dropWord xs cs else none

/-- Parse a value that is neither an object nor an array, from its first
character `c`: a string, a number or one of the three literals. -/
def parseScalar (c : Char) (rest : List Char) : Option (JSON × List Char) :=
  if c = '"' then
    (scanString none [] rest).map (fun p => (JSON.str p.1, p.2))
  else if c = '-' ∨ c.isDigit then
    (scanNumber (c :: rest)).map (fun p => (JSON.num p.1, p.2))
  else if c = 't' then
    (dropWord ['r', 'u', 'e'] rest).map (fun r => (JSON.bool true, r))
  else if c = 'f' then
    (dropWord ['a', 'l', 's', 'e'] rest).map (fun r => (JSON.bool false, r))
  else if c = 'n' then
    (dropWord ['u', 'l', 'l'] rest).map (fun r => (JSON.null, r))
  else none

/-- Read the key of an object member and the colon after it; returns the key and
the text after the colon. -/
def memberKey (cs : List Char) : Option (String × List Char) :=
  match skipSpace cs with
  | [] => none
  | q :: rest =>
    if q = '"' then
      match scanString none [] rest with
      | none => none
      | some (key, rest2) =>
        match skipSpace rest2 with
        | [] => none
        | colon :: rest3 => if colon = ':' then some (key, rest3) else none
    else none

/-- Constant `maxNestingDepth` of the scanner: the number of objects and arrays
that may be open at the same time. -/
def maxNestingDepth : Nat := 10000

mutual
/-- Parse one JSON value at the front of the text; returns it with the text that
follows. The first argument bounds the number of nested calls; `depth` is the
number of objects and arrays open around the value, and opening one more than
`maxNestingDepth` is a syntax error ("exceeded max depth"). -/
def parseValue : Nat → Nat → List Char → Option (JSON × List Char)
  | 0, _, _ => none
  | fuel + 1, depth, cs =>
    match skipSpace cs with
    | [] => none
    | c :: rest =>
      if c = '{' then
        if maxNestingDepth ≤ depth then none
        else
          match skipSpace rest with
          | [] => none
          | d :: rest2 =>
            if d = '}' then some (JSON.obj [], rest2)
            else parseMembers fuel (depth + 1) [] (d :: rest2)
      else if c = '[' then
        if maxNestingDepth ≤ depth then none
        else
          match skipSpace rest with
          | [] => none
          | d :: rest2 =>
            if d = ']' then some (JSON.arr [], rest2)
            else parseElements fuel (depth + 1) [] (d :: rest2)
      else parseScalar c rest
/-- Parse the members of an object from a key on, up to the closing brace. -/
def parseMembers :
    Nat → Nat → List (String × JSON) → List Char → Option (JSON × List Char)
  | 0, _, _, _ => none
  | fuel + 1, depth, acc, cs =>
    match memberKey cs with
    | none => none
    | some (key, rest3) =>
      match parseValue fuel depth rest3 with
      | none => none
      | some (v, rest4) =>
        match skipSpace rest4 with
        | [] => none
        | d :: rest5 =>
          if d = ',' then parseMembers fuel depth (acc ++ [(key, v)]) rest5
          else if d = '}' then some (JSON.obj (acc ++ [(key, v)]), rest5)
          else none
/-- Parse the elements of an array from a value on, up to the closing bracket. -/
def parseElements : Nat → Nat → List JSON → List Char → Option (JSON × List Char)
  | 0, _, _, _ => none
  | fuel + 1, depth, acc, cs =>
    match parseValue fuel depth cs with
    | none => none
    | some (v, rest) =>
      match skipSpace rest with
      | [] => none
      | d :: rest2 =>
        if d = ',' then parseElements fuel depth (acc ++ [v]) rest2
        else if d = ']' then some (JSON.arr (acc ++ [v]), rest2)
        else none
end

/-- Parse a whole JSON text (`checkValid` and the value it denotes): one value,
surrounded by optional space and nothing else, nested no deeper than
`maxNestingDepth`. Twice the length of the text (and two) is fuel enough for
every text: see `parseValue_fuel`. -/
def parseJSON (text : String) : Option JSON :=
  match parseValue (2 * text.length + 2) 0 text.data with
  | none => none
  | some (v, rest) =>
    match skipSpace rest with
    | [] => some v
    | _ :: _ => none

/-! ## Go maps and their iteration order -/

/-- Assignment `m[key] = value` on a map kept as a list of entries with distinct
keys: an existing entry is overwritten, a new key is added. -/
def mapAssign {V : Type} (key : String) (value : V) :
    List (String × V) → List (String × V)
  | [] => [(key, value)]
  | (k, v) :: m => if k = key then (key, value) :: m else (k, v) :: mapAssign key value m

/-- The order in which a `for ... range` loop visits the entries of a map. Go
leaves it unspecified; `seed` stands for the choice the runtime makes, and
selects one of the permutations of the entries. -/
def rangeOrder {E : Type} (seed : Nat) (m : List E) : List E :=
  (List.permutations' m).getD (seed % (List.permutations' m).length) m

/-! ## encoding/json: decoding into Go maps -/

/-- The two kinds of error `json.Unmarshal` returns here: the text is not valid
JSON, or a JSON value does not fit the Go type it is decoded into. -/
inductive UnmarshalError where
  | SyntaxError
  | UnmarshalTypeError
deriving DecidableEq, Repr

/-- Decode the members of an object into a `map[string]string`, in the order of
the text: a string is stored, a `null` leaves the element at its zero value `""`,
any other value is a type error. -/
def stringMembers (m : List (String × String)) :
    List (String × JSON) → Except UnmarshalError (List (String × String))
  | [] => .ok m
  | (key, JSON.str s) :: rest => stringMembers (mapAssign key s m) rest
  | (key, JSON.null) :: rest => stringMembers (mapAssign key "" m) rest
  | _ :: _ => .error .UnmarshalTypeError

/-- Call `json.Unmarshal(jsonBlob, &postEnv)` with `postEnv` a nil
`map[string]string`: an object fills the map, the literal `null` leaves it nil
(no entries) without an error, every other value is a type error. On an error
the caller never looks at the map. -/
def UnmarshalStringMap (jsonBlob : String) :
    Except UnmarshalError (List (String × String)) :=
  match parseJSON jsonBlob with
  | none => .error .SyntaxError
  | some (JSON.obj kvs) => stringMembers [] kvs
  | some JSON.null => .ok []
  | some _ => .error .UnmarshalTypeError

/-! ## strconv: float64 from and to decimal text -/

/-- A finite float64: the value is `mant * 2 ^ exp`, negated when `neg`. -/
structure Float64 where
  neg : Bool
  mant : Nat
  exp : Int
deriving DecidableEq, Repr

/-- The number a run of decimal digits writes. -/
def digitsValue (ds : List Char) : Nat :=
  ds.foldl (fun n c => 10 * n + (c.toNat - 48)) 0

/-- The number the digits of an exponent write, as `strconv` reads it: once the
number has reached 10000 further digits are skipped, which is far beyond every
exponent a float64 can bear. -/
def exponentValue (ds : List Char) : Nat :=
  ds.foldl (fun n c => if n < 10000 then 10 * n + (c.toNat - 48) else n) 0

/-- The exponent part of a number literal, from the `e` on: the signed number
after it, and 0 when there is none. -/
def readExponent (cs : List Char) : Int :=
  match cs with
  | [] => 0
  | _ :: rest =>
    match rest with
    | [] => 0
    | s :: ds =>
      if s = '-' then -(exponentValue ds : Int)
      else if s = '+' then (exponentValue ds : Int)
      else (exponentValue (s :: ds) : Int)

/-- Read a JSON number literal as sign, integer `d` and power of ten `e`: the
literal denotes `d * 10 ^ e`. -/
def readDecimal (lit : List Char) : Bool × Nat × Int :=
  let neg : Bool := lit.head? = some '-'
  let body := if neg then lit.drop 1 else lit
  let ip := body.takeWhile Char.isDigit
  let r1 := body.dropWhile Char.isDigit
  let fp := if r1.head? = some '.' then (r1.drop 1).takeWhile Char.isDigit else []
  let r2 := if r1.head? = some '.' then (r1.drop 1).dropWhile Char.isDigit else r1
  (neg, digitsValue (ip ++ fp), readExponent r2 - (fp.length : Int))

/-- The position of the highest set bit of `n`, by halving: `acc` counts the
halvings done. -/
def highBit : Nat → Nat → Nat → Nat
  | 0, _, acc => acc
  | fuel + 1, n, acc => if n < 2 then acc else highBit fuel (n / 2) (acc + 1)

/-- Round the positive rational `d * 10 ^ e` to the nearest float64, ties to the
even mantissa: the mantissa and binary exponent of the result, or `none` when it
is beyond the largest float64. -/
def roundFloat64 (d : Nat) (e : Int) : Option (Nat × Int) :=
  if d = 0 then some (0, 0)
  else
    let n : Nat := if 0 ≤ e then d * 10 ^ e.toNat else d
    let m : Nat := if 0 ≤ e then 1 else 10 ^ (-e).toNat
    let b : Int := (highBit n n 0 : Int) - (highBit m m 0 : Int)
    let atLeast : Bool := if 0 ≤ b then m * 2 ^ b.toNat ≤ n else m ≤ n * 2 ^ (-b).toNat
    let lg : Int := if atLeast then b else b - 1
    let x : Int := max (lg - 52) (-1074)
    let num : Nat := if 0 ≤ x then n else n * 2 ^ (-x).toNat
    let den : Nat := if 0 ≤ x then m * 2 ^ x.toNat else m
    let q := num / den
    let r := num % den
    let q1 := if den < 2 * r ∨ (2 * r = den ∧ q % 2 = 1) then q + 1 else q
    let mant := if q1 = 2 ^ 53 then 2 ^ 52 else q1
    let exp := if q1 = 2 ^ 53 then x + 1 else x
    if 971 < exp then none else some (mant, exp)

/-- Function `strconv.ParseFloat(lit, 64)` on a JSON number literal; `none` is
the range error. -/
def ParseFloat (lit : String) : Option Float64 :=
  let dec := readDecimal lit.data
  (roundFloat64 dec.2.1 dec.2.2).map (fun p => ⟨dec.1, p.1, p.2⟩)

/-- One step of the search for the shortest decimal of a float64, at the decimal
position `p`: with `x`, `lo`, `up` the value and the two ends of its rounding
interval as multiples of `1 / s`, the multiple of `10 ^ p` just below the value
and the one just above are tried; the search goes on to the next position when
neither lies in the interval. -/
def shortestSearch (x lo up s : Nat) (inclusive : Bool) : Nat → Int → Nat × Int
  | 0, p => (0, p)
  | fuel + 1, p =>
    let a := if p < 0 then x * 10 ^ (-p).toNat else x
    let l := if p < 0 then lo * 10 ^ (-p).toNat else lo
    let u := if p < 0 then up * 10 ^ (-p).toNat else up
    let b := if p < 0 then s else s * 10 ^ p.toNat
    let q := a / b
    let okdown : Bool := l < q * b ∨ (inclusive = true ∧ l = q * b)
    let okup : Bool := (q + 1) * b < u ∨ (inclusive = true ∧ (q + 1) * b = u)
    let r := a - q * b
    let nearestUp : Bool := b < 2 * r ∨ (2 * r = b ∧ q % 2 = 1)
    if okdown && okup then (if nearestUp then q + 1 else q, p)
    else if okdown then (q, p)
    else if okup then (q + 1, p)
    else shortestSearch x lo up s inclusive fuel (p - 1)

/-- Drop the zeros at the end of a digit string. -/
def trimZeros (ds : List Char) : List Char :=
  (ds.reverse.dropWhile (fun c => c = '0')).reverse

/-- The shortest decimal that reads back as the float64 `mant * 2 ^ exp`
(`mant > 0`): its digits and the position of the decimal point, the value being
`0.d₁d₂… * 10 ^ dp`. -/
def shortestDecimal (mant : Nat) (exp : Int) : List Char × Int :=
  let e2 := exp - 2
  let s : Nat := if e2 < 0 then 2 ^ (-e2).toNat else 1
  let k : Nat := if e2 < 0 then 1 else 2 ^ e2.toNat
  let x := 4 * mant * k
  let up := (4 * mant + 2) * k
  let lo := (if mant = 2 ^ 52 ∧ -1074 < exp then 4 * mant - 1 else 4 * mant - 2) * k
  let start : Nat := (Nat.toDigits 10 (up / s + 1)).length
  let found := shortestSearch x lo up s (mant % 2 = 0) (start + (-e2).toNat + 2) start
  let ds := Nat.toDigits 10 found.1
  (trimZeros ds, (ds.length : Int) + found.2)

/-- Format `%e` with the shortest digits: `d.ddde±xx`. -/
def fmtE (ds : List Char) (dp : Int) : String :=
  let x := dp - 1
  let xs := Nat.toDigits 10 x.natAbs
  String.mk (ds.take 1 ++ (if 1 < ds.length then '.' :: ds.drop 1 else []) ++
    ['e', if x < 0 then '-' else '+'] ++ (if xs.length < 2 then '0' :: xs else xs))

/-- Format `%f` with the shortest digits. -/
def fmtF (ds : List Char) (dp : Int) : String :=
  let ip := if 0 < dp then ds.take dp.toNat ++ List.replicate (dp.toNat - ds.length) '0'
    else ['0']
  let fp := if dp < ds.length then
      List.replicate (-dp).toNat '0' ++ ds.drop dp.toNat
    else []
  String.mk (ip ++ (if fp = [] then [] else '.' :: fp))

/-- Verb `%v` on a float64: format `%g` with the shortest digits, which is `%e`
when the decimal exponent is below -4 or at least 6, and `%f` otherwise. -/
def formatFloat (f : Float64) : String :=
  let dd : List Char × Int := if f.mant = 0 then ([], 0) else shortestDecimal f.mant f.exp
  let x := dd.2 - 1
  (if f.neg then "-" else "") ++
    (if x < -4 ∨ 6 ≤ x then fmtE dd.1 dd.2 else fmtF dd.1 dd.2)

/-! ## encoding/json: decoding into `interface{}` -/

/-- A value stored in an `interface{}` by the decoder. -/
inductive GoValue where
  | nil
  | bool (b : Bool)
  | float64 (f : Float64)
  | string (s : String)
  | slice (xs : List GoValue)
  | map (m : List (String × GoValue))

mutual
/-- Method `valueInterface`: decode a JSON value into an `interface{}`. A number
becomes a float64 (`convertNumber`), and one that float64 cannot hold is an
error of the decoder. -/
def valueInterface : JSON → Option GoValue
  | JSON.null => some GoValue.nil
  | JSON.bool b => some (GoValue.bool b)
  | JSON.num lit => (ParseFloat lit).map GoValue.float64
  | JSON.str s => some (GoValue.string s)
  | JSON.arr xs => (arrayInterface xs).map GoValue.slice
  | JSON.obj kvs => (objectInterface [] kvs).map GoValue.map
/-- Method `arrayInterface`: decode the elements of an array. -/
def arrayInterface : List JSON → Option (List GoValue)
  | [] => some []
  | x :: xs =>
    match valueInterface x, arrayInterface xs with
    | some v, some vs => some (v :: vs)
    | _, _ => none
/-- Method `objectInterface`: decode the members of an object into a
`map[string]interface{}`, in the order of the text. -/
def objectInterface (m : List (String × GoValue)) :
    List (String × JSON) → Option (List (String × GoValue))
  | [] => some m
  | (key, x) :: rest =>
    match valueInterface x with
    | some v => objectInterface (mapAssign key v m) rest
    | none => none
end

/-- Call `json.Unmarshal(jsonBlob, &postMetrics)` with `postMetrics` a nil
`map[string]interface{}`: an object fills the map, the literal `null` leaves it
nil, every other top-level value is a type error, and so is a number that
float64 cannot hold. -/
def UnmarshalInterfaceMap (jsonBlob : String) :
    Except UnmarshalError (List (String × GoValue)) :=
  match parseJSON jsonBlob with
  | none => .error .SyntaxError
  | some (JSON.obj kvs) =>
    match objectInterface [] kvs with
    | some m => .ok m
    | none => .error .UnmarshalTypeError
  | some JSON.null => .ok []
  | some _ => .error .UnmarshalTypeError

/-! ## fmt: the default rendering `%v` -/

mutual
/-- Verb `%v` on a decoded value: `<nil>`, `true`, the float, the bare string,
`[a b]` for a slice and `map[k:v k:v]` with the keys in increasing order for a
map. -/
def formatV : GoValue → String
  | GoValue.nil => "<nil>"
  | GoValue.bool b => if b then "true" else "false"
  | GoValue.float64 f => formatFloat f
  | GoValue.string s => s
  | GoValue.slice xs => "[" ++ " ".intercalate (formatSlice xs) ++ "]"
  | GoValue.map m =>
    "map[" ++ " ".intercalate
      ((List.insertionSort (fun a b : String × String => a.1.data ≤ b.1.data)
        (formatEntries m)).map (fun e => e.1 ++ ":" ++ e.2)) ++ "]"
/-- The elements of a slice, each rendered with `%v`. -/
def formatSlice : List GoValue → List String
  | [] => []
  | x :: xs => formatV x :: formatSlice xs
/-- The entries of a map, each value rendered with `%v`. -/
def formatEntries : List (String × GoValue) → List (String × String)
  | [] => []
  | (k, x) :: rest => (k, formatV x) :: formatEntries rest
end

/-- Call `fmt.Sprintf("%v|%v", metricKey, metricValue)`. -/
def Sprintf (metricKey : String) (metricValue : GoValue) : String :=
  metricKey ++ "|" ++ formatV metricValue

/-! ## os: the process environment -/

/-- The process environment: the value of each variable that is set. -/
abbrev Environ := String → Option String

/-- Whether `os.Setenv(key, value)` accepts its arguments: it fails with `EINVAL`
on an empty key, on a key holding `=` or a NUL, and on a value holding a NUL. -/
def setenvValid (key value : String) : Bool :=
  key ≠ "" && !(key.data.any (fun c => c = '=' || c = '\x00')) &&
    !(value.data.any (fun c => c = '\x00'))

/-- Function `os.Setenv`: sets the variable, or fails and leaves the
environment as it was. -/
def Setenv (key value : String) (env : Environ) : Option Environ :=
  if setenvValid key value then some (fun k => if k = key then some value else env k)
  else none

/-! ## The event bus -/

/-- Modelled from the spec: the kinds of event of the `events` package, whose
source is not part of this fragment ("Kind is one of a small closed enumeration
(at minimum: Metric, Reload-related signals, Shutdown)"). -/
inductive EventCode where
  | Metric
  | Reload
  | Shutdown
deriving DecidableEq, Repr

/-- Modelled from the spec: the `events.Event` struct, whose source is not part of
this fragment ("an immutable (kind, payload-string) pair"). -/
structure Event where
  Code : EventCode
  Source : String
deriving DecidableEq, Repr

/-- Modelled from the spec: the three methods the `events.EventBus`, whose source
is not part of this fragment, offers to the endpoints (`Publish(Event)`,
`SetReloadFlag()`, `Shutdown()`), as the calls made on it. -/
inductive BusCall where
  | Publish (e : Event)
  | SetReloadFlag
  | Shutdown
deriving DecidableEq, Repr

/-- State outside the handlers: the process environment and the calls made so far
on the event bus the `Endpoints` value points to, oldest first. -/
structure World where
  env : Environ
  bus : List BusCall

/-! ## The three endpoints -/

/-- One turn of the loop of `PutEnviron`: `os.Setenv(envKey, envValue)`, its
error dropped. -/
def setenvStep (w : World) (entry : String × String) : World :=
  match Setenv entry.1 entry.2 w.env with
  | some env => { w with env := env }
  | none => w

/-- Method `Endpoints.PutEnviron`; `α` is the type behind the `interface{}`
result, `seed` the iteration order of the `range` loop. -/
def Endpoints.PutEnviron (α : Type) (seed : Nat) : PostHandler World α :=
  fun r w =>
    match r.Body with
    | none => ((none, StatusUnprocessableEntity), w)
    | some jsonBlob =>
      match UnmarshalStringMap jsonBlob with
      | .error _ => ((none, StatusUnprocessableEntity), w)
      | .ok postEnv => ((none, StatusOK), (rangeOrder seed postEnv).foldl setenvStep w)

/-- Method `Endpoints.PostReload`: `SetReloadFlag()`, then `Shutdown()`. -/
def Endpoints.PostReload (α : Type) : PostHandler World α :=
  fun _ w =>
    let w1 := { w with bus := w.bus ++ [BusCall.SetReloadFlag] }
    let w2 := { w1 with bus := w1.bus ++ [BusCall.Shutdown] }
    ((none, StatusOK), w2)

/-- One turn of the loop of `PostMetric`: format the entry and publish it. -/
def publishStep (w : World) (entry : String × GoValue) : World :=
  let eventVal := Sprintf entry.1 entry.2
  { w with bus := w.bus ++ [BusCall.Publish ⟨EventCode.Metric, eventVal⟩] }

/-- Method `Endpoints.PostMetric`; `seed` is the iteration order of the `range`
loop. -/
def Endpoints.PostMetric (α : Type) (seed : Nat) :
    PostHandler World α :=
  fun r w =>
    match r.Body with
    | none => ((none, StatusUnprocessableEntity), w)
    | some jsonBlob =>
      match UnmarshalInterfaceMap jsonBlob with
      | .error _ => ((none, StatusUnprocessableEntity), w)
      | .ok postMetrics =>
        ((none, StatusOK), (rangeOrder seed postMetrics).foldl publishStep w)

/-! ## Reading maps and JSON objects -/

/-- Index expression `m[key]` with its presence flag. -/
def mapGet {V : Type} : List (String × V) → String → Option V
  | [], _ => none
  | (k, v) :: m, key => if k = key then some v else mapGet m key

/-- The keys of a map. -/
def mapKeys {V : Type} (m : List (String × V)) : List String := m.map Prod.fst

/-- The value of the last member of a JSON object that carries the given key. -/
def lastMember (key : String) : List (String × JSON) → Option JSON
  | [] => none
  | (k, x) :: rest =>
    match lastMember key rest with
    | some y => some y
    | none => if k = key then some x else none

/-- Whether `json.Unmarshal` accepts a JSON value for a `map[string]string`: it is
the literal `null`, or an object each of whose values is a string or `null`. -/
def fitsStringMap : JSON → Bool
  | JSON.null => true
  | JSON.obj kvs =>
    kvs.all (fun kv => match kv.2 with
      | JSON.str _ => true
      | JSON.null => true
      | _ => false)
  | _ => false

/-- The string a member value leaves in a `map[string]string`. -/
def strOf : JSON → String
  | JSON.str s => s
  | _ => ""

/-- The environment after `os.Setenv` was called, error dropped, on each entry of
a map: an entry that `Setenv` accepts sets its variable, everything else stays. -/
def envAfter (m : List (String × String)) (env : Environ) (k : String) : Option String :=
  match mapGet m k with
  | some v => if setenvValid k v then some v else env k
  | none => env k

/-! ## Concrete inputs used below -/

/-- A world with no environment variable set and no call made on the bus. -/
def emptyWorld : World := ⟨fun _ => none, []⟩

/-- A wrapped function that counts its invocations in the state and returns
`(nil, 200)`. -/
def countingHandler : PostHandler Nat String := fun _ n => ((none, StatusOK), n + 1)

/-- A wrapped function that counts its invocations and returns the given payload
and status. -/
def replyingHandler (result : Option String) (status : Int) : PostHandler Nat String :=
  fun _ n => ((result, status), n + 1)

/-- The body `{"a":[[...]]}` with 10000 arrays nested inside the object: one
level deeper than the decoder allows. -/
def deepBody : String :=
  String.mk ('\x7b' :: '"' :: 'a' :: '"' :: ':' ::
    (List.replicate 10000 '[' ++ (List.replicate 10000 ']' ++ ['\x7d'])))

/-- The response of the adapter to a handler that returned `(nil, 200)`. -/
def emptyOK : ResponseWriter := { header := [], code := some 200, body := "\n" }

/-- The writer after the adapter set the JSON content type and wrote status 200,
before the encoder writes the payload. -/
def jsonStarted : ResponseWriter :=
  { header := [("Content-Type", "application/json")], code := some 200, body := "" }

/-- The response of the adapter to a handler that returned status 422. -/
def unprocessable : ResponseWriter :=
  { header := [("Content-Type", "text/plain; charset=utf-8"),
      ("X-Content-Type-Options", "nosniff")],
    code := some 422, body := "Unprocessable Entity\n" }

/-! ## Properties of the adapter -/

theorem bodyAllowedForStatus_of_range (code : Int) (h1 : 200 ≤ code) (h3 : code ≠ 204)
    (h4 : code ≠ 304) : bodyAllowedForStatus code = true := by
  have h5 : ¬ (100 ≤ code ∧ code ≤ 199) := by omega
  simp [bodyAllowedForStatus, h5, h3, h4]

theorem Error_fresh (msg : String) (code : Int) (h1 : 200 ≤ code) (h2 : code ≤ 999)
    (h3 : code ≠ 204) (h4 : code ≠ 304) :
    Error ResponseWriter.fresh msg code =
      { header := [("Content-Type", "text/plain; charset=utf-8"),
          ("X-Content-Type-Options", "nosniff")],
        code := some code, body := msg ++ "\n" } := by
  have h5 : ¬ (code < 100 ∨ code > 999) := by omega
  have h6 : ¬ (code ≤ 199 ∧ code ≠ 101) := by omega
  have h7 := bodyAllowedForStatus_of_range code h1 h3 h4
  simp [Error, ResponseWriter.fresh, ResponseWriter.SetHeader, ResponseWriter.WriteHeader,
    ResponseWriter.Write, h5, h6, h7]

theorem ServeHTTP_post_status {σ α : Type} (marshal : α → Option String)
    (pw : PostHandler σ α) (r : Request) (s : σ) (hm : r.Method = MethodPost)
    (hs : (pw r s).1.2 ≠ StatusOK) :
    PostHandler.ServeHTTP marshal pw ResponseWriter.fresh r s =
      (Error ResponseWriter.fresh (StatusText (pw r s).1.2) (pw r s).1.2, (pw r s).2) := by
  simp [PostHandler.ServeHTTP, hm, hs]

/-- C1. A request whose method is not POST gets status 501 and the body
"Not Implemented" with a newline (the text `http.StatusText` gives for 501); the
state the wrapped function acts on is left as it was, and the outcome is the same
whatever the wrapped function is: it is not invoked. -/
theorem ServeHTTP_not_post {σ α : Type} (marshal : α → Option String)
    (pw : PostHandler σ α) (r : Request) (s : σ) (h : r.Method ≠ MethodPost) :
    (PostHandler.ServeHTTP marshal pw ResponseWriter.fresh r s).1.code = some 501 ∧
    (PostHandler.ServeHTTP marshal pw ResponseWriter.fresh r s).1.body =
      StatusText 501 ++ "\n" ∧
    (PostHandler.ServeHTTP marshal pw ResponseWriter.fresh r s).1.body =
      "Not Implemented\n" ∧
    (PostHandler.ServeHTTP marshal pw ResponseWriter.fresh r s).1.panicked = false ∧
    (PostHandler.ServeHTTP marshal pw ResponseWriter.fresh r s).2 = s ∧
    ∀ (β : Type) (marshal2 : β → Option String) (pw2 : PostHandler σ β),
      PostHandler.ServeHTTP marshal2 pw2 ResponseWriter.fresh r s =
        PostHandler.ServeHTTP marshal pw ResponseWriter.fresh r s := by
  have hst : StatusText 501 = "Not Implemented" := by decide
  have key : ∀ (β : Type) (m2 : β → Option String) (p2 : PostHandler σ β),
      PostHandler.ServeHTTP m2 p2 ResponseWriter.fresh r s =
        (Error ResponseWriter.fresh "Not Implemented" 501, s) := by
    intro β m2 p2
    simp only [PostHandler.ServeHTTP, if_pos h, StatusNotImplemented, hst]
  rw [key α marshal pw,
    Error_fresh "Not Implemented" 501 (by decide) (by decide) (by decide) (by decide)]
  refine ⟨rfl, ?_, rfl, rfl, rfl, ?_⟩
  · rw [hst]
  · intro β m2 p2
    rw [key β m2 p2,
      Error_fresh "Not Implemented" 501 (by decide) (by decide) (by decide) (by decide)]

theorem ServeHTTP_not_post_witness :
    "GET" ≠ MethodPost ∧
    (PostHandler.ServeHTTP (fun v => some v) countingHandler ResponseWriter.fresh
      ⟨"GET", some ""⟩ 0).1.code = some 501 ∧
    (PostHandler.ServeHTTP (fun v => some v) countingHandler ResponseWriter.fresh
      ⟨"GET", some ""⟩ 0).2 = 0 :=
  ⟨by decide,
   (ServeHTTP_not_post (fun v => some v) countingHandler ⟨"GET", some ""⟩ 0 (by decide)).1,
   (ServeHTTP_not_post (fun v => some v) countingHandler ⟨"GET", some ""⟩ 0
      (by decide)).2.2.2.2.1⟩

/-- C7. On a POST request, when the wrapped function returns status 200 the
adapter applies it once (the final state is the state after that one call) and
writes status 200. With a payload the Content-Type header is `application/json`
and the body is what the encoder writes for it, the JSON encoding followed by the
newline that ends every `Encode`; with no payload the body is a single newline
and no header is set. -/
theorem ServeHTTP_post_ok {σ α : Type} (marshal : α → Option String)
    (pw : PostHandler σ α) (r : Request) (s s1 : σ) (result : Option α)
    (hm : r.Method = MethodPost) (hf : pw r s = ((result, StatusOK), s1)) :
    (PostHandler.ServeHTTP marshal pw ResponseWriter.fresh r s).2 = s1 ∧
    (PostHandler.ServeHTTP marshal pw ResponseWriter.fresh r s).1.code = some 200 ∧
    (PostHandler.ServeHTTP marshal pw ResponseWriter.fresh r s).1.panicked = false ∧
    (∀ v, result = some v →
      (PostHandler.ServeHTTP marshal pw ResponseWriter.fresh r s).1.header =
        [("Content-Type", "application/json")] ∧
      ∀ js, marshal v = some js →
        (PostHandler.ServeHTTP marshal pw ResponseWriter.fresh r s).1.body = js ++ "\n") ∧
    (result = none →
      (PostHandler.ServeHTTP marshal pw ResponseWriter.fresh r s).1 =
        { header := [], code := some 200, body := "\n" }) := by
  cases result with
  | none =>
    have e : PostHandler.ServeHTTP marshal pw ResponseWriter.fresh r s =
        ({ header := [], code := some 200, body := "\n" }, s1) := by
      have e2 : (ResponseWriter.fresh.WriteHeader StatusOK).Write "\n" =
          { header := [], code := some 200, body := "\n" } := by decide
      simp [PostHandler.ServeHTTP, hm, hf, e2]
    rw [e]
    exact ⟨rfl, rfl, rfl, fun v hv => (by cases hv), fun _ => rfl⟩
  | some v =>
    have e2 : (ResponseWriter.fresh.SetHeader "Content-Type" "application/json").WriteHeader
        StatusOK = jsonStarted := by decide
    have e : PostHandler.ServeHTTP marshal pw ResponseWriter.fresh r s =
        (Encode marshal jsonStarted v, s1) := by
      simp [PostHandler.ServeHTTP, hm, hf, e2]
    have hb : bodyAllowedForStatus 200 = true := by decide
    rw [e]
    refine ⟨rfl, ?_, ?_, ?_, fun h => (by cases h)⟩
    · unfold Encode
      cases marshal v <;>
        simp [ResponseWriter.Write, ResponseWriter.WriteHeader, hb, jsonStarted]
    · unfold Encode
      cases marshal v <;>
        simp [ResponseWriter.Write, ResponseWriter.WriteHeader, hb, jsonStarted]
    · intro v2 hv
      cases hv
      refine ⟨?_, ?_⟩
      · unfold Encode
        cases marshal v <;>
          simp [ResponseWriter.Write, ResponseWriter.WriteHeader, hb, jsonStarted]
      · intro js hjs
        simp [Encode, hjs, ResponseWriter.Write, ResponseWriter.WriteHeader, hb, jsonStarted]

theorem ServeHTTP_post_ok_witness :
    "POST" = MethodPost ∧
    (PostHandler.ServeHTTP (fun v => some v) (replyingHandler (some "[1]") 200)
      ResponseWriter.fresh ⟨"POST", some ""⟩ 0).2 = 1 ∧
    (PostHandler.ServeHTTP (fun v => some v) (replyingHandler (some "[1]") 200)
      ResponseWriter.fresh ⟨"POST", some ""⟩ 0).1.code = some 200 :=
  ⟨by decide,
   (ServeHTTP_post_ok (fun v => some v) (replyingHandler (some "[1]") 200)
      ⟨"POST", some ""⟩ 0 1 (some "[1]") (by decide) rfl).1,
   (ServeHTTP_post_ok (fun v => some v) (replyingHandler (some "[1]") 200)
      ⟨"POST", some ""⟩ 0 1 (some "[1]") (by decide) rfl).2.1⟩

/-- C8 (as stated, refuted). When the wrapped function returns status 0, the
adapter's `WriteHeader(0)` panics: no status code and no body are written. For
status 204 the status is written but the writer accepts no body, so the body is
not the reason phrase; for status 150 the writer sends an informational line and
the response itself gets status 200. -/
theorem ServeHTTP_status_not_written :
    (PostHandler.ServeHTTP (fun v => some v) (replyingHandler none 0)
      ResponseWriter.fresh ⟨"POST", some ""⟩ 0).1.panicked = true ∧
    (PostHandler.ServeHTTP (fun v => some v) (replyingHandler none 0)
      ResponseWriter.fresh ⟨"POST", some ""⟩ 0).1.code ≠ some 0 ∧
    (PostHandler.ServeHTTP (fun v => some v) (replyingHandler none 0)
      ResponseWriter.fresh ⟨"POST", some ""⟩ 0).1.body = "" ∧
    (PostHandler.ServeHTTP (fun v => some v) (replyingHandler none 204)
      ResponseWriter.fresh ⟨"POST", some ""⟩ 0).1.code = some 204 ∧
    (PostHandler.ServeHTTP (fun v => some v) (replyingHandler none 204)
      ResponseWriter.fresh ⟨"POST", some ""⟩ 0).1.body = "" ∧
    (PostHandler.ServeHTTP (fun v => some v) (replyingHandler none 150)
      ResponseWriter.fresh ⟨"POST", some ""⟩ 0).1.code = some 200 := by
  refine ⟨?_, ?_, ?_, ?_, ?_, ?_⟩ <;> decide

/-- C8 (amended). On a POST request, when the wrapped function returns a status
other than 200, the response does not depend on the payload: a second function
that returns the same status with another payload gets the same response. When
the status is one the writer takes as the status of a response with a body (from
200 to 999, not 204 and not 304), the adapter writes that status code, and the
body is the reason phrase of the code in the table below (empty for a code that
is not in it) followed by the newline of `http.Error`. -/
theorem ServeHTTP_post_error {σ α : Type} (marshal : α → Option String)
    (pw pw2 : PostHandler σ α) (r : Request) (s s1 s2 : σ) (result result2 : Option α)
    (status : Int) (hm : r.Method = MethodPost) (hs : status ≠ StatusOK)
    (hf : pw r s = ((result, status), s1)) (hf2 : pw2 r s = ((result2, status), s2)) :
    (PostHandler.ServeHTTP marshal pw2 ResponseWriter.fresh r s).1 =
      (PostHandler.ServeHTTP marshal pw ResponseWriter.fresh r s).1 ∧
    (PostHandler.ServeHTTP marshal pw ResponseWriter.fresh r s).2 = s1 ∧
    (200 ≤ status → status ≤ 999 → status ≠ 204 → status ≠ 304 →
      (PostHandler.ServeHTTP marshal pw ResponseWriter.fresh r s).1.code = some status ∧
      (PostHandler.ServeHTTP marshal pw ResponseWriter.fresh r s).1.panicked = false ∧
      (PostHandler.ServeHTTP marshal pw ResponseWriter.fresh r s).1.body =
        (((
        [(100, "Continue"), (101, "Switching Protocols"), (102, "Processing"),
         (103, "Early Hints"), (200, "OK"), (201, "Created"), (202, "Accepted"),
         (203, "Non-Authoritative Information"), (204, "No Content"), (205, "Reset Content"),
         (206, "Partial Content"), (207, "Multi-Status"), (208, "Already Reported"),
         (226, "IM Used"), (300, "Multiple Choices"), (301, "Moved Permanently"),
         (302, "Found"), (303, "See Other"), (304, "Not Modified"), (305, "Use Proxy"),
         (307, "Temporary Redirect"), (308, "Permanent Redirect"), (400, "Bad Request"),
         (401, "Unauthorized"), (402, "Payment Required"), (403, "Forbidden"),
         (404, "Not Found"), (405, "Method Not Allowed"), (406, "Not Acceptable"),
         (407, "Proxy Authentication Required"), (408, "Request Timeout"), (409, "Conflict"),
         (410, "Gone"), (411, "Length Required"), (412, "Precondition Failed"),
         (413, "Request Entity Too Large"), (414, "Request URI Too Long"),
         (415, "Unsupported Media Type"), (416, "Requested Range Not Satisfiable"),
         (417, "Expectation Failed"), (418, "I'm a teapot"), (421, "Misdirected Request"),
         (422, "Unprocessable Entity"), (423, "Locked"), (424, "Failed Dependency"),
         (425, "Too Early"), (426, "Upgrade Required"), (428, "Precondition Required"),
         (429, "Too Many Requests"), (431, "Request Header Fields Too Large"),
         (451, "Unavailable For Legal Reasons"), (500, "Internal Server Error"),
         (501, "Not Implemented"), (502, "Bad Gateway"), (503, "Service Unavailable"),
         (504, "Gateway Timeout"), (505, "HTTP Version Not Supported"),
         (506, "Variant Also Negotiates"), (507, "Insufficient Storage"),
         (508, "Loop Detected"), (510, "Not Extended"),
         (511, "Network Authentication Required")]
          : List (Int × String)).find? (fun p => p.1 = status)).map Prod.snd).getD "" ++
          "\n") := by
  have k1 := ServeHTTP_post_status marshal pw r s hm (by rw [hf]; exact hs)
  have k2 := ServeHTTP_post_status marshal pw2 r s hm (by rw [hf2]; exact hs)
  rw [hf] at k1
  rw [hf2] at k2
  rw [k1, k2]
  refine ⟨rfl, rfl, ?_⟩
  intro h1 h2 h3 h4
  simp only
  rw [Error_fresh _ status h1 h2 h3 h4]
  exact ⟨rfl, rfl, rfl⟩

theorem ServeHTTP_post_error_witness :
    "POST" = MethodPost ∧ (404 : Int) ≠ StatusOK ∧
    (PostHandler.ServeHTTP (fun v => some v) (replyingHandler (some "a") 404)
      ResponseWriter.fresh ⟨"POST", some ""⟩ 0).1.code = some 404 ∧
    (PostHandler.ServeHTTP (fun v => some v) (replyingHandler (some "a") 404)
      ResponseWriter.fresh ⟨"POST", some ""⟩ 0).1.body = "Not Found\n" ∧
    (PostHandler.ServeHTTP (fun v => some v) (replyingHandler none 404)
      ResponseWriter.fresh ⟨"POST", some ""⟩ 0).1 =
      (PostHandler.ServeHTTP (fun v => some v) (replyingHandler (some "a") 404)
        ResponseWriter.fresh ⟨"POST", some ""⟩ 0).1 ∧
    (PostHandler.ServeHTTP (fun v => some v) (replyingHandler (some "a") 418)
      ResponseWriter.fresh ⟨"POST", some ""⟩ 0).1.body = "I'm a teapot\n" ∧
    (PostHandler.ServeHTTP (fun v => some v) (replyingHandler (some "a") 599)
      ResponseWriter.fresh ⟨"POST", some ""⟩ 0).1.body = "\n" :=
  ⟨by decide, by decide,
   ((ServeHTTP_post_error (fun v => some v) (replyingHandler (some "a") 404)
      (replyingHandler none 404) ⟨"POST", some ""⟩ 0 1 1 (some "a") none 404
      (by decide) (by decide) rfl rfl).2.2 (by decide) (by decide) (by decide)
      (by decide)).1,
   ((ServeHTTP_post_error (fun v => some v) (replyingHandler (some "a") 404)
      (replyingHandler none 404) ⟨"POST", some ""⟩ 0 1 1 (some "a") none 404
      (by decide) (by decide) rfl rfl).2.2 (by decide) (by decide) (by decide)
      (by decide)).2.2,
   (ServeHTTP_post_error (fun v => some v) (replyingHandler (some "a") 404)
      (replyingHandler none 404) ⟨"POST", some ""⟩ 0 1 1 (some "a") none 404
      (by decide) (by decide) rfl rfl).1,
   ((ServeHTTP_post_error (fun v => some v) (replyingHandler (some "a") 418)
      (replyingHandler none 418) ⟨"POST", some ""⟩ 0 1 1 (some "a") none 418
      (by decide) (by decide) rfl rfl).2.2 (by decide) (by decide) (by decide)
      (by decide)).2.2,
   ((ServeHTTP_post_error (fun v => some v) (replyingHandler (some "a") 599)
      (replyingHandler none 599) ⟨"POST", some ""⟩ 0 1 1 (some "a") none 599
      (by decide) (by decide) rfl rfl).2.2 (by decide) (by decide) (by decide)
      (by decide)).2.2⟩

/-! ## The parser never fails for want of fuel -/

theorem skipSpace_length_le (cs : List Char) : (skipSpace cs).length ≤ cs.length := by
  induction cs with
  | nil => simp [skipSpace]
  | cons c cs ih =>
    unfold skipSpace
    split
    · exact Nat.le_succ_of_le ih
    · exact Nat.le_refl _

theorem skipSpace_cons_length (cs rest : List Char) (c : Char) (h : skipSpace cs = c :: rest) :
    rest.length < cs.length := by
  have := skipSpace_length_le cs
  rw [h] at this
  simpa using this

theorem scanString_length_aux (n : Nat) :
    ∀ (cs : List Char) (pending : Option Nat) (acc : List Char) (s : String)
      (rest : List Char), cs.length ≤ n → scanString pending acc cs = some (s, rest) →
      rest.length < cs.length := by
  induction n with
  | zero =>
    intro cs pending acc s rest hlen h
    cases cs with
    | nil => simp [scanString] at h
    | cons c rest0 => simp at hlen
  | succ n ih =>
    intro cs pending acc s rest hlen h
    cases cs with
    | nil => simp [scanString] at h
    | cons c rest0 =>
      unfold scanString at h
      simp only [List.length_cons] at hlen ⊢
      repeat' split at h
      all_goals first
        | (simp at h; done)
        | (simp only [Option.some.injEq, Prod.mk.injEq] at h
           obtain ⟨_, rfl⟩ := h
           omega)
        | (have h2 := ih _ _ _ _ _ (by try simp only [List.length_cons] at *
                                       omega) h
           try simp only [List.length_cons] at *
           omega)

theorem scanString_length_lt (pending : Option Nat) (acc cs : List Char) (s : String)
    (rest : List Char) (h : scanString pending acc cs = some (s, rest)) :
    rest.length < cs.length :=
  scanString_length_aux cs.length cs pending acc s rest (Nat.le_refl _) h

theorem span_snd_length_le (p : Char → Bool) (l : List Char) :
    (l.span p).2.length ≤ l.length := by
  rw [List.span_eq_take_drop]
  exact (List.dropWhile_sublist p).length_le

theorem scanDigits_length_le (cs ds rest : List Char) (h : scanDigits cs = some (ds, rest)) :
    rest.length ≤ cs.length := by
  unfold scanDigits at h
  have hs := span_snd_length_le Char.isDigit cs
  split at h
  · cases h
  · rename_i ds2 rest2 heq
    simp only [Option.some.injEq, Prod.mk.injEq] at h
    rw [heq] at hs
    obtain ⟨_, rfl⟩ := h
    exact hs

theorem scanInt_length_lt (cs ip rest : List Char) (h : scanInt cs = some (ip, rest)) :
    rest.length < cs.length := by
  unfold scanInt at h
  cases cs with
  | nil => cases h
  | cons c r =>
    have hs := span_snd_length_le Char.isDigit r
    simp only at h
    split at h
    · simp only [Option.some.injEq, Prod.mk.injEq] at h
      obtain ⟨_, rfl⟩ := h
      simp
    · split at h
      · simp only [Option.some.injEq, Prod.mk.injEq] at h
        obtain ⟨_, rfl⟩ := h
        simp only [List.length_cons]
        omega
      · cases h

theorem scanFrac_length_le (cs fp rest : List Char) (h : scanFrac cs = some (fp, rest)) :
    rest.length ≤ cs.length := by
  unfold scanFrac at h
  cases cs with
  | nil =>
    simp only [Option.some.injEq, Prod.mk.injEq] at h
    obtain ⟨_, rfl⟩ := h
    simp
  | cons c r =>
    simp only at h
    split at h
    · cases hd : scanDigits r with
      | none => simp [hd] at h
      | some p =>
        have hl := scanDigits_length_le r p.1 p.2 hd
        simp only [hd, Option.map_some', Option.some.injEq, Prod.mk.injEq] at h
        obtain ⟨_, rfl⟩ := h
        simp only [List.length_cons]
        omega
    · simp only [Option.some.injEq, Prod.mk.injEq] at h
      obtain ⟨_, rfl⟩ := h
      simp

theorem scanExp_length_le (cs ep rest : List Char) (h : scanExp cs = some (ep, rest)) :
    rest.length ≤ cs.length := by
  unfold scanExp at h
  cases cs with
  | nil =>
    simp only [Option.some.injEq, Prod.mk.injEq] at h
    obtain ⟨_, rfl⟩ := h
    simp
  | cons c r =>
    simp only at h
    split at h
    · cases r with
      | nil => cases h
      | cons s r2 =>
        simp only at h
        split at h
        · cases hd : scanDigits r2 with
          | none => simp [hd] at h
          | some p =>
            have hl := scanDigits_length_le r2 p.1 p.2 hd
            simp only [hd, Option.map_some', Option.some.injEq, Prod.mk.injEq] at h
            obtain ⟨_, rfl⟩ := h
            simp only [List.length_cons]
            omega
        · cases hd : scanDigits (s :: r2) with
          | none => simp [hd] at h
          | some p =>
            have hl := scanDigits_length_le (s :: r2) p.1 p.2 hd
            simp only [hd, Option.map_some', Option.some.injEq, Prod.mk.injEq] at h
            obtain ⟨_, rfl⟩ := h
            simp only [List.length_cons] at hl ⊢
            omega
    · simp only [Option.some.injEq, Prod.mk.injEq] at h
      obtain ⟨_, rfl⟩ := h
      simp

theorem scanNumber_length_lt (cs : List Char) (lit : String) (rest : List Char)
    (h : scanNumber cs = some (lit, rest)) : rest.length < cs.length := by
  unfold scanNumber at h
  simp only at h
  have hsig : (match cs with
      | c :: r => if c = '-' then (['-'], r) else ([], cs)
      | [] => (([], []) : List Char × List Char)).2.length ≤ cs.length := by
    cases cs with
    | nil => simp
    | cons c r =>
      simp only
      split <;> simp
  split at h
  · cases h
  · rename_i ip r1 hi
    have h1 := scanInt_length_lt _ _ _ hi
    split at h
    · cases h
    · rename_i fp r2 hf
      have h2 := scanFrac_length_le _ _ _ hf
      split at h
      · cases h
      · rename_i ep r3 he
        have h3 := scanExp_length_le _ _ _ he
        simp only [Option.some.injEq, Prod.mk.injEq] at h
        obtain ⟨_, rfl⟩ := h
        omega

theorem dropWord_length_le (word cs rest : List Char) (h : dropWord word cs = some rest) :
    rest.length ≤ cs.length := by
  induction word generalizing cs with
  | nil =>
    simp only [dropWord, Option.some.injEq] at h
    rw [h]
  | cons x xs ih =>
    cases cs with
    | nil => simp [dropWord] at h
    | cons c r =>
      simp only [dropWord] at h
      split at h
      · have := ih r h
        simp only [List.length_cons]
        omega
      · cases h

theorem parseScalar_length_le (c : Char) (rest0 : List Char) (v : JSON) (rest : List Char)
    (h : parseScalar c rest0 = some (v, rest)) : rest.length ≤ rest0.length := by
  unfold parseScalar at h
  split at h
  · cases hs : scanString none [] rest0 with
    | none => simp [hs] at h
    | some p =>
      have hl := scanString_length_lt none [] rest0 p.1 p.2 hs
      simp only [hs, Option.map_some', Option.some.injEq, Prod.mk.injEq] at h
      obtain ⟨_, rfl⟩ := h
      omega
  · split at h
    · cases hs : scanNumber (c :: rest0) with
      | none => simp [hs] at h
      | some p =>
        have hl := scanNumber_length_lt (c :: rest0) p.1 p.2 hs
        simp only [hs, Option.map_some', Option.some.injEq, Prod.mk.injEq] at h
        obtain ⟨_, rfl⟩ := h
        simp only [List.length_cons] at hl
        omega
    · have word : ∀ (w : List Char) (j : JSON),
          (dropWord w rest0).map (fun r => (j, r)) = some (v, rest) →
          rest.length ≤ rest0.length := by
        intro w j hw
        cases hd : dropWord w rest0 with
        | none => simp [hd] at hw
        | some r =>
          have hl := dropWord_length_le w rest0 r hd
          simp only [hd, Option.map_some', Option.some.injEq, Prod.mk.injEq] at hw
          obtain ⟨_, rfl⟩ := hw
          exact hl
      split at h
      · exact word _ _ h
      · split at h
        · exact word _ _ h
        · split at h
          · exact word _ _ h
          · cases h

theorem memberKey_length_lt (cs : List Char) (key : String) (rest : List Char)
    (h : memberKey cs = some (key, rest)) : rest.length < cs.length := by
  unfold memberKey at h
  split at h
  · cases h
  · rename_i q r0 hq
    have h0 := skipSpace_cons_length cs r0 q hq
    split at h
    · split at h
      · cases h
      · rename_i k2 r2 hs
        have h1 := scanString_length_lt none [] r0 k2 r2 hs
        split at h
        · cases h
        · rename_i colon r3 hc
          have h2 := skipSpace_cons_length r2 r3 colon hc
          split at h
          · simp only [Option.some.injEq, Prod.mk.injEq] at h
            obtain ⟨_, rfl⟩ := h
            omega
          · cases h
    · cases h

/-- What success of the parser with some fuel tells: the text that is left is
shorter, and every fuel from twice the number of characters consumed on succeeds
with the same result. -/
theorem parse_fuel (n : Nat) :
    (∀ depth cs v rest, parseValue n depth cs = some (v, rest) →
      rest.length < cs.length ∧
      ∀ k, 2 * (cs.length - rest.length) ≤ k + 2 →
        parseValue (k + 1) depth cs = some (v, rest)) ∧
    (∀ depth acc cs v rest, parseMembers n depth acc cs = some (v, rest) →
      rest.length + 2 ≤ cs.length ∧
      ∀ k, 2 * (cs.length - rest.length) ≤ k + 1 →
        parseMembers (k + 1) depth acc cs = some (v, rest)) ∧
    (∀ depth acc cs v rest, parseElements n depth acc cs = some (v, rest) →
      rest.length + 2 ≤ cs.length ∧
      ∀ k, 2 * (cs.length - rest.length) ≤ k + 1 →
        parseElements (k + 1) depth acc cs = some (v, rest)) := by
  induction n with
  | zero =>
    refine ⟨?_, ?_, ?_⟩
    · intro depth cs v rest h
      rw [parseValue] at h
      cases h
    · intro depth acc cs v rest h
      rw [parseMembers] at h
      cases h
    · intro depth acc cs v rest h
      rw [parseElements] at h
      cases h
  | succ n ih =>
    obtain ⟨ihV, ihM, ihE⟩ := ih
    refine ⟨?_, ?_, ?_⟩
    · intro depth cs v rest h
      rw [parseValue] at h
      cases hsk : skipSpace cs with
      | nil => simp [hsk] at h
      | cons c r0 =>
        have h0 := skipSpace_cons_length cs r0 c hsk
        simp only [hsk] at h
        by_cases hc1 : c = '{'
        · rw [if_pos hc1] at h
          by_cases hdep : maxNestingDepth ≤ depth
          · rw [if_pos hdep] at h
            cases h
          rw [if_neg hdep] at h
          cases hsk2 : skipSpace r0 with
          | nil => simp [hsk2] at h
          | cons d r2 =>
            have h2 := skipSpace_cons_length r0 r2 d hsk2
            simp only [hsk2] at h
            by_cases hd : d = '}'
            · rw [if_pos hd] at h
              simp only [Option.some.injEq, Prod.mk.injEq] at h
              obtain ⟨rfl, rfl⟩ := h
              refine ⟨by omega, ?_⟩
              intro k _
              rw [parseValue]
              simp only [hsk, if_pos hc1, if_neg hdep, hsk2, if_pos hd]
            · rw [if_neg hd] at h
              obtain ⟨hl, hk⟩ := ihM _ _ _ _ _ h
              simp only [List.length_cons] at hl hk
              refine ⟨by omega, ?_⟩
              intro k hkb
              obtain ⟨k2, rfl⟩ : ∃ k2, k = k2 + 1 := ⟨k - 1, by omega⟩
              rw [parseValue]
              simp only [hsk, if_pos hc1, if_neg hdep, hsk2, if_neg hd]
              exact hk k2 (by omega)
        · rw [if_neg hc1] at h
          by_cases hc2 : c = '['
          · rw [if_pos hc2] at h
            by_cases hdep : maxNestingDepth ≤ depth
            · rw [if_pos hdep] at h
              cases h
            rw [if_neg hdep] at h
            cases hsk2 : skipSpace r0 with
            | nil => simp [hsk2] at h
            | cons d r2 =>
              have h2 := skipSpace_cons_length r0 r2 d hsk2
              simp only [hsk2] at h
              by_cases hd : d = ']'
              · rw [if_pos hd] at h
                simp only [Option.some.injEq, Prod.mk.injEq] at h
                obtain ⟨rfl, rfl⟩ := h
                refine ⟨by omega, ?_⟩
                intro k _
                rw [parseValue]
                simp only [hsk, if_neg hc1, if_pos hc2, if_neg hdep, hsk2, if_pos hd]
              · rw [if_neg hd] at h
                obtain ⟨hl, hk⟩ := ihE _ _ _ _ _ h
                simp only [List.length_cons] at hl hk
                refine ⟨by omega, ?_⟩
                intro k hkb
                obtain ⟨k2, rfl⟩ : ∃ k2, k = k2 + 1 := ⟨k - 1, by omega⟩
                rw [parseValue]
                simp only [hsk, if_neg hc1, if_pos hc2, if_neg hdep, hsk2, if_neg hd]
                exact hk k2 (by omega)
          · rw [if_neg hc2] at h
            have hl := parseScalar_length_le c r0 v rest h
            refine ⟨by omega, ?_⟩
            intro k _
            rw [parseValue]
            simp only [hsk, if_neg hc1, if_neg hc2]
            exact h
    · intro depth acc cs v rest h
      rw [parseMembers] at h
      cases hmk : memberKey cs with
      | none => simp [hmk] at h
      | some p =>
        obtain ⟨key, r3⟩ := p
        have h0 := memberKey_length_lt cs key r3 hmk
        simp only [hmk] at h
        cases hpv : parseValue n depth r3 with
        | none => simp [hpv] at h
        | some q =>
          obtain ⟨v1, r4⟩ := q
          obtain ⟨hl1, hk1⟩ := ihV _ _ _ _ hpv
          simp only [hpv] at h
          cases hsk : skipSpace r4 with
          | nil => simp [hsk] at h
          | cons d r5 =>
            have h5 := skipSpace_cons_length r4 r5 d hsk
            simp only [hsk] at h
            by_cases hd1 : d = ','
            · rw [if_pos hd1] at h
              obtain ⟨hl, hk⟩ := ihM _ _ _ _ _ h
              refine ⟨by omega, ?_⟩
              intro k hkb
              obtain ⟨k2, rfl⟩ : ∃ k2, k = k2 + 1 := ⟨k - 1, by omega⟩
              obtain ⟨k3, rfl⟩ : ∃ k3, k2 = k3 + 1 := ⟨k2 - 1, by omega⟩
              rw [parseMembers]
              simp only [hmk, hk1 (k3 + 1) (by omega), hsk, if_pos hd1]
              exact hk (k3 + 1) (by omega)
            · rw [if_neg hd1] at h
              by_cases hd2 : d = '}'
              · rw [if_pos hd2] at h
                simp only [Option.some.injEq, Prod.mk.injEq] at h
                obtain ⟨rfl, rfl⟩ := h
                refine ⟨by omega, ?_⟩
                intro k hkb
                obtain ⟨k2, rfl⟩ : ∃ k2, k = k2 + 1 := ⟨k - 1, by omega⟩
                rw [parseMembers]
                simp only [hmk, hk1 k2 (by omega), hsk, if_neg hd1, if_pos hd2]
              · rw [if_neg hd2] at h
                cases h
    · intro depth acc cs v rest h
      rw [parseElements] at h
      cases hpv : parseValue n depth cs with
      | none => simp [hpv] at h
      | some q =>
        obtain ⟨v1, r1⟩ := q
        obtain ⟨hl1, hk1⟩ := ihV _ _ _ _ hpv
        simp only [hpv] at h
        cases hsk : skipSpace r1 with
        | nil => simp [hsk] at h
        | cons d r2 =>
          have h2 := skipSpace_cons_length r1 r2 d hsk
          simp only [hsk] at h
          by_cases hd1 : d = ','
          · rw [if_pos hd1] at h
            obtain ⟨hl, hk⟩ := ihE _ _ _ _ _ h
            refine ⟨by omega, ?_⟩
            intro k hkb
            obtain ⟨k2, rfl⟩ : ∃ k2, k = k2 + 1 := ⟨k - 1, by omega⟩
            obtain ⟨k3, rfl⟩ : ∃ k3, k2 = k3 + 1 := ⟨k2 - 1, by omega⟩
            rw [parseElements]
            simp only [hk1 (k3 + 1) (by omega), hsk, if_pos hd1]
            exact hk (k3 + 1) (by omega)
          · rw [if_neg hd1] at h
            by_cases hd2 : d = ']'
            · rw [if_pos hd2] at h
              simp only [Option.some.injEq, Prod.mk.injEq] at h
              obtain ⟨rfl, rfl⟩ := h
              refine ⟨by omega, ?_⟩
              intro k hkb
              obtain ⟨k2, rfl⟩ : ∃ k2, k = k2 + 1 := ⟨k - 1, by omega⟩
              rw [parseElements]
              simp only [hk1 k2 (by omega), hsk, if_neg hd1, if_pos hd2]
            · rw [if_neg hd2] at h
              cases h

/-- The fuel `parseJSON` gives the parser is enough for every text: a value that
the parser finds with any fuel at all, it finds with that fuel. -/
theorem parseValue_fuel (n : Nat) (text : String) (v : JSON) (rest : List Char)
    (h : parseValue n 0 text.data = some (v, rest)) :
    parseValue (2 * text.length + 2) 0 text.data = some (v, rest) := by
  obtain ⟨hl, hk⟩ := (parse_fuel n).1 0 text.data v rest h
  have hlen : text.length = text.data.length := rfl
  exact hk (2 * text.length + 1) (by omega)

/-! ## Maps: assignment, lookup and iteration order -/

theorem rangeOrder_perm {E : Type} (seed : Nat) (m : List E) :
    (rangeOrder seed m).Perm m := by
  unfold rangeOrder
  rw [List.getD_eq_getElem?_getD]
  cases h : (List.permutations' m)[seed % (List.permutations' m).length]? with
  | none => exact List.Perm.refl m
  | some p => exact List.mem_permutations'.1 (List.getElem?_mem h)

theorem rangeOrder_any {E : Type} (m p : List E) (h : p.Perm m) :
    ∃ seed, rangeOrder seed m = p := by
  have hm : p ∈ List.permutations' m := List.mem_permutations'.2 h
  obtain ⟨i, hi, hget⟩ := List.mem_iff_getElem.1 hm
  refine ⟨i, ?_⟩
  unfold rangeOrder
  rw [Nat.mod_eq_of_lt hi, List.getD_eq_getElem?_getD, List.getElem?_eq_getElem hi, hget]
  rfl

theorem mapGet_mapAssign {V : Type} (key : String) (value : V) (m : List (String × V))
    (k : String) :
    mapGet (mapAssign key value m) k = if key = k then some value else mapGet m k := by
  induction m with
  | nil => simp [mapAssign, mapGet]
  | cons e m ih =>
    obtain ⟨k1, v1⟩ := e
    by_cases h1 : k1 = key
    · subst h1
      by_cases h2 : k1 = k
      · simp [mapAssign, mapGet, h2]
      · simp [mapAssign, mapGet, h2]
    · by_cases h2 : k1 = k
      · subst h2
        have h3 : ¬ key = k1 := fun h => h1 h.symm
        simp [mapAssign, mapGet, h1, h3]
      · simp [mapAssign, mapGet, h1, h2, ih]

theorem mem_mapKeys_mapAssign {V : Type} (key : String) (value : V)
    (m : List (String × V)) (k : String) :
    k ∈ mapKeys (mapAssign key value m) ↔ k = key ∨ k ∈ mapKeys m := by
  induction m with
  | nil => simp [mapAssign, mapKeys]
  | cons e m ih =>
    obtain ⟨k1, v1⟩ := e
    by_cases h1 : k1 = key
    · subst h1
      simp [mapAssign, mapKeys]
    · have ih2 : k ∈ List.map Prod.fst (mapAssign key value m) ↔
          k = key ∨ k ∈ List.map Prod.fst m := ih
      simp only [mapAssign, if_neg h1, mapKeys, List.map_cons, List.mem_cons, ih2]
      tauto

theorem nodup_mapKeys_mapAssign {V : Type} (key : String) (value : V)
    (m : List (String × V)) (h : (mapKeys m).Nodup) :
    (mapKeys (mapAssign key value m)).Nodup := by
  induction m with
  | nil => simp [mapAssign, mapKeys]
  | cons e m ih =>
    obtain ⟨k1, v1⟩ := e
    have hn : k1 ∉ mapKeys m ∧ (mapKeys m).Nodup := by
      simpa [mapKeys] using h
    by_cases h1 : k1 = key
    · subst h1
      simpa [mapAssign, mapKeys] using h
    · have h3 : k1 ∉ mapKeys (mapAssign key value m) := by
        rw [mem_mapKeys_mapAssign]
        rintro (h4 | h4)
        · exact h1 h4
        · exact hn.1 h4
      have h5 := ih hn.2
      simp only [mapAssign, if_neg h1]
      exact List.nodup_cons.2 ⟨h3, h5⟩

theorem mapGet_eq_none_of_not_mem {V : Type} (m : List (String × V)) (k : String)
    (h : k ∉ mapKeys m) : mapGet m k = none := by
  induction m with
  | nil => rfl
  | cons e m ih =>
    obtain ⟨k1, v1⟩ := e
    have h1 : ¬ k1 = k ∧ k ∉ mapKeys m := by
      constructor
      · intro h2
        exact h (by simp [mapKeys, h2])
      · intro h2
        exact h (by simp [mapKeys] at h2 ⊢; exact Or.inr h2)
    simp [mapGet, h1.1, ih h1.2]

theorem mapGet_eq_some_iff {V : Type} (m : List (String × V)) (k : String) (v : V)
    (h : (mapKeys m).Nodup) : mapGet m k = some v ↔ (k, v) ∈ m := by
  induction m with
  | nil => simp [mapGet]
  | cons e m ih =>
    obtain ⟨k1, v1⟩ := e
    have hn : k1 ∉ mapKeys m ∧ (mapKeys m).Nodup := by
      simpa [mapKeys] using h
    by_cases h1 : k1 = k
    · subst h1
      have h2 : ∀ x, (k1, x) ∉ m := by
        intro x hx
        exact hn.1 (List.mem_map.2 ⟨(k1, x), hx, rfl⟩)
      simp only [mapGet, if_true, Option.some.injEq, List.mem_cons, Prod.mk.injEq, true_and]
      constructor
      · intro h3
        exact Or.inl h3.symm
      · rintro (h3 | h3)
        · exact h3.symm
        · exact absurd h3 (h2 v)
    · have h2 : ¬ k = k1 := fun h3 => h1 h3.symm
      simp only [mapGet, if_neg h1, List.mem_cons, Prod.mk.injEq, h2, false_and, false_or]
      exact ih hn.2

theorem mapGet_perm {V : Type} (m p : List (String × V)) (k : String)
    (h : (mapKeys m).Nodup) (hp : p.Perm m) : mapGet p k = mapGet m k := by
  have hpn : (mapKeys p).Nodup := (List.Perm.nodup_iff (hp.map Prod.fst)).2 h
  apply Option.ext
  intro v
  simp only [Option.mem_def]
  rw [mapGet_eq_some_iff p k v hpn, mapGet_eq_some_iff m k v h]
  exact hp.mem_iff

/-! ## The decoders -/

theorem lastMember_eq_none_iff (k : String) (kvs : List (String × JSON)) :
    lastMember k kvs = none ↔ k ∉ kvs.map Prod.fst := by
  induction kvs with
  | nil => simp [lastMember]
  | cons e rest ih =>
    obtain ⟨k1, x⟩ := e
    cases hl : lastMember k rest with
    | none =>
      have h1 := ih.1 hl
      by_cases h2 : k1 = k
      · simp [lastMember, hl, h2]
      · have h3 : ¬ k = k1 := fun h => h2 h.symm
        simpa [lastMember, hl, h2, h3] using h1
    | some y =>
      have h1 : ¬ (k ∉ rest.map Prod.fst) := fun h => by
        rw [ih.2 h] at hl
        cases hl
      have h2 : k ∈ rest.map Prod.fst := not_not.1 h1
      simp only [lastMember, hl, List.map_cons, List.mem_cons]
      constructor
      · intro h3
        cases h3
      · intro h3
        exact absurd (Or.inr h2) h3

theorem stringMembers_nodup (kvs : List (String × JSON)) (acc m : List (String × String))
    (h : stringMembers acc kvs = .ok m) (hn : (mapKeys acc).Nodup) : (mapKeys m).Nodup := by
  induction kvs generalizing acc with
  | nil =>
    simp only [stringMembers, Except.ok.injEq] at h
    exact h ▸ hn
  | cons e rest ih =>
    obtain ⟨k1, x⟩ := e
    cases x with
    | str s => exact ih _ (by simpa [stringMembers] using h) (nodup_mapKeys_mapAssign _ _ _ hn)
    | null => exact ih _ (by simpa [stringMembers] using h) (nodup_mapKeys_mapAssign _ _ _ hn)
    | bool b => simp [stringMembers] at h
    | num l => simp [stringMembers] at h
    | arr xs => simp [stringMembers] at h
    | obj ys => simp [stringMembers] at h

theorem stringMembers_get (kvs : List (String × JSON)) (acc m : List (String × String))
    (k : String) (h : stringMembers acc kvs = .ok m) :
    mapGet m k = match lastMember k kvs with
      | some x => some (strOf x)
      | none => mapGet acc k := by
  induction kvs generalizing acc with
  | nil =>
    simp only [stringMembers, Except.ok.injEq] at h
    simp [lastMember, h]
  | cons e rest ih =>
    obtain ⟨k1, x⟩ := e
    have step : ∀ s : String, stringMembers (mapAssign k1 s acc) rest = .ok m →
        strOf x = s →
        mapGet m k = match lastMember k ((k1, x) :: rest) with
          | some y => some (strOf y)
          | none => mapGet acc k := by
      intro s hs hx
      rw [ih _ hs]
      cases hl : lastMember k rest with
      | some y => simp [lastMember, hl]
      | none =>
        by_cases h2 : k1 = k
        · simp [lastMember, hl, h2, mapGet_mapAssign, hx]
        · simp [lastMember, hl, h2, mapGet_mapAssign]
    cases x with
    | str s => exact step s (by simpa [stringMembers] using h) rfl
    | null => exact step "" (by simpa [stringMembers] using h) rfl
    | bool b => simp [stringMembers] at h
    | num l => simp [stringMembers] at h
    | arr xs => simp [stringMembers] at h
    | obj ys => simp [stringMembers] at h

theorem stringMembers_of_strings (kvs : List (String × JSON)) (acc : List (String × String))
    (hs : ∀ kv ∈ kvs, ∃ s, kv.2 = JSON.str s) : ∃ m, stringMembers acc kvs = .ok m := by
  induction kvs generalizing acc with
  | nil => exact ⟨acc, rfl⟩
  | cons e rest ih =>
    obtain ⟨k1, x⟩ := e
    obtain ⟨s, hx⟩ := hs (k1, x) (List.mem_cons_self _ _)
    simp only at hx
    subst hx
    obtain ⟨m, hm⟩ := ih (mapAssign k1 s acc) (fun kv hkv => hs kv (List.mem_cons_of_mem _ hkv))
    exact ⟨m, by simpa [stringMembers] using hm⟩

theorem stringMembers_error (kvs : List (String × JSON)) (acc : List (String × String))
    (h : fitsStringMap (JSON.obj kvs) = false) :
    stringMembers acc kvs = .error .UnmarshalTypeError := by
  induction kvs generalizing acc with
  | nil => simp [fitsStringMap] at h
  | cons e rest ih =>
    obtain ⟨k1, x⟩ := e
    cases x with
    | str s =>
      have h2 : fitsStringMap (JSON.obj rest) = false := by
        simpa [fitsStringMap] using h
      simpa [stringMembers] using ih _ h2
    | null =>
      have h2 : fitsStringMap (JSON.obj rest) = false := by
        simpa [fitsStringMap] using h
      simpa [stringMembers] using ih _ h2
    | bool b => simp [stringMembers]
    | num l => simp [stringMembers]
    | arr xs => simp [stringMembers]
    | obj ys => simp [stringMembers]

theorem UnmarshalStringMap_nodup (body : String) (m : List (String × String))
    (h : UnmarshalStringMap body = .ok m) : (mapKeys m).Nodup := by
  unfold UnmarshalStringMap at h
  cases hp : parseJSON body with
  | none => simp [hp] at h
  | some j =>
    cases j with
    | obj kvs =>
      simp only [hp] at h
      exact stringMembers_nodup kvs [] m h (by simp [mapKeys])
    | null =>
      simp only [hp, Except.ok.injEq] at h
      subst h
      simp [mapKeys]
    | bool b => simp [hp] at h
    | num l => simp [hp] at h
    | str s => simp [hp] at h
    | arr xs => simp [hp] at h

/-! ## The environment loop of `PutEnviron` -/

theorem setenvStep_env (w : World) (e : String × String) (k : String) :
    (setenvStep w e).env k =
      if e.1 = k ∧ setenvValid e.1 e.2 = true then some e.2 else w.env k := by
  unfold setenvStep Setenv
  by_cases hv : setenvValid e.1 e.2 = true
  · simp only [if_pos hv]
    by_cases hk : e.1 = k
    · subst hk
      simp [hv]
    · have hk2 : ¬ k = e.1 := fun h => hk h.symm
      simp [hk, hk2]
  · simp [hv]

theorem setenvStep_bus (w : World) (e : String × String) : (setenvStep w e).bus = w.bus := by
  unfold setenvStep
  cases Setenv e.1 e.2 w.env <;> rfl

theorem foldl_setenvStep_bus (l : List (String × String)) (w : World) :
    (l.foldl setenvStep w).bus = w.bus := by
  induction l generalizing w with
  | nil => rfl
  | cons e l ih => rw [List.foldl_cons, ih, setenvStep_bus]

theorem foldl_setenvStep_env (l : List (String × String)) (w : World) (k : String)
    (h : (mapKeys l).Nodup) : (l.foldl setenvStep w).env k = envAfter l w.env k := by
  induction l generalizing w with
  | nil => rfl
  | cons e l ih =>
    obtain ⟨k1, v1⟩ := e
    have hn : k1 ∉ mapKeys l ∧ (mapKeys l).Nodup := by
      simpa [mapKeys] using h
    rw [List.foldl_cons, ih _ hn.2]
    unfold envAfter
    by_cases hk : k1 = k
    · subst hk
      rw [mapGet_eq_none_of_not_mem l k1 hn.1]
      simp only [mapGet, if_true, setenvStep_env, true_and]
    · simp only [mapGet, if_neg hk, setenvStep_env, hk, false_and, if_false]

theorem envAfter_idem (m : List (String × String)) (env : Environ) (k : String) :
    envAfter m (envAfter m env) k = envAfter m env k := by
  unfold envAfter
  cases mapGet m k with
  | none => rfl
  | some v => by_cases hv : setenvValid k v = true <;> simp [hv]

theorem PutEnviron_unreadable (α : Type) (seed : Nat) (r : Request) (w : World)
    (hb : r.Body = none) :
    Endpoints.PutEnviron α seed r w = ((none, StatusUnprocessableEntity), w) := by
  simp only [Endpoints.PutEnviron, hb]

theorem PutEnviron_undecodable (α : Type) (seed : Nat) (r : Request) (w : World)
    (body : String) (e : UnmarshalError) (hb : r.Body = some body)
    (hd : UnmarshalStringMap body = .error e) :
    Endpoints.PutEnviron α seed r w = ((none, StatusUnprocessableEntity), w) := by
  simp only [Endpoints.PutEnviron, hb, hd]

theorem PutEnviron_decoded (α : Type) (seed : Nat) (r : Request) (w : World)
    (body : String) (m : List (String × String)) (hb : r.Body = some body)
    (hd : UnmarshalStringMap body = .ok m) :
    Endpoints.PutEnviron α seed r w =
      ((none, StatusOK), (rangeOrder seed m).foldl setenvStep w) := by
  simp only [Endpoints.PutEnviron, hb, hd]

theorem PutEnviron_decoded_env (α : Type) (seed : Nat) (r : Request) (w : World)
    (body : String) (m : List (String × String)) (hb : r.Body = some body)
    (hd : UnmarshalStringMap body = .ok m) (k : String) :
    (Endpoints.PutEnviron α seed r w).2.env k = envAfter m w.env k := by
  have hn := UnmarshalStringMap_nodup body m hd
  have hp := rangeOrder_perm seed m
  have hpn : (mapKeys (rangeOrder seed m)).Nodup :=
    (List.Perm.nodup_iff (hp.map Prod.fst)).2 hn
  rw [PutEnviron_decoded α seed r w body m hb hd]
  simp only
  rw [foldl_setenvStep_env _ _ _ hpn]
  unfold envAfter
  rw [mapGet_perm m _ k hn hp]

theorem UnmarshalStringMap_misfit (body : String)
    (h : parseJSON body = none ∨ ∃ j, parseJSON body = some j ∧ fitsStringMap j = false) :
    ∃ e, UnmarshalStringMap body = .error e := by
  unfold UnmarshalStringMap
  rcases h with h | ⟨j, hj, hf⟩
  · exact ⟨.SyntaxError, by simp [h]⟩
  · cases j with
    | obj kvs => exact ⟨.UnmarshalTypeError, by simp [hj, stringMembers_error kvs [] hf]⟩
    | null => simp [fitsStringMap] at hf
    | bool b => exact ⟨.UnmarshalTypeError, by simp [hj]⟩
    | num l => exact ⟨.UnmarshalTypeError, by simp [hj]⟩
    | str s => exact ⟨.UnmarshalTypeError, by simp [hj]⟩
    | arr xs => exact ⟨.UnmarshalTypeError, by simp [hj]⟩

/-! ## Properties of `PutEnviron` -/

/-- C2 (as stated, refuted). The body `{"A=B":"x"}` is a valid JSON object of
string keys and string values and `PutEnviron` returns `(nil, 200)` on it, but
`os.Setenv` rejects the key and the environment does not map `A=B` to `x`; the
same happens for the empty key of `{"":"x"}`. -/
theorem PutEnviron_key_not_set :
    parseJSON "\x7b\"A=B\":\"x\"\x7d" = some (JSON.obj [("A=B", JSON.str "x")]) ∧
    (Endpoints.PutEnviron Unit 0 ⟨"POST", some "\x7b\"A=B\":\"x\"\x7d"⟩ emptyWorld).1 =
      (none, 200) ∧
    (Endpoints.PutEnviron Unit 0 ⟨"POST", some "\x7b\"A=B\":\"x\"\x7d"⟩ emptyWorld).2.env
      "A=B" ≠ some "x" ∧
    (Endpoints.PutEnviron Unit 0 ⟨"POST", some "\x7b\"\":\"x\"\x7d"⟩ emptyWorld).1 =
      (none, 200) ∧
    (Endpoints.PutEnviron Unit 0 ⟨"POST", some "\x7b\"\":\"x\"\x7d"⟩ emptyWorld).2.env
      "" ≠ some "x" := by
  refine ⟨rfl, ?_, ?_, ?_, ?_⟩ <;> decide

/-- C2 (amended). For a body that is a valid JSON object whose values are all
strings, `PutEnviron` returns `(nil, 200)` and makes no call on the bus. After it,
each key of the body that `os.Setenv` accepts with its value (key not empty and
free of `=` and NUL, value free of NUL) is mapped to that value, the value of the
key's last member; a key that `Setenv` rejects keeps what it had; and so does
every variable that is not a key of the body. -/
theorem PutEnviron_sets_accepted (α : Type) (seed : Nat) (r : Request) (w : World)
    (body : String) (kvs : List (String × JSON)) (hb : r.Body = some body)
    (hp : parseJSON body = some (JSON.obj kvs))
    (hs : ∀ kv ∈ kvs, ∃ s, kv.2 = JSON.str s) :
    (Endpoints.PutEnviron α seed r w).1 = (none, StatusOK) ∧
    (Endpoints.PutEnviron α seed r w).2.bus = w.bus ∧
    (∀ k v, lastMember k kvs = some (JSON.str v) → setenvValid k v = true →
      (Endpoints.PutEnviron α seed r w).2.env k = some v) ∧
    (∀ k v, lastMember k kvs = some (JSON.str v) → setenvValid k v = false →
      (Endpoints.PutEnviron α seed r w).2.env k = w.env k) ∧
    (∀ k, k ∉ kvs.map Prod.fst → (Endpoints.PutEnviron α seed r w).2.env k = w.env k) := by
  obtain ⟨m, hm⟩ := stringMembers_of_strings kvs [] hs
  have hd : UnmarshalStringMap body = .ok m := by
    simp only [UnmarshalStringMap, hp, hm]
  have hget : ∀ k, mapGet m k = match lastMember k kvs with
      | some x => some (strOf x)
      | none => none := by
    intro k
    rw [stringMembers_get kvs [] m k hm]
    cases lastMember k kvs <;> simp [mapGet]
  have henv := PutEnviron_decoded_env α seed r w body m hb hd
  refine ⟨?_, ?_, ?_, ?_, ?_⟩
  · rw [PutEnviron_decoded α seed r w body m hb hd]
  · rw [PutEnviron_decoded α seed r w body m hb hd]
    exact foldl_setenvStep_bus _ _
  · intro k v hl hv
    rw [henv k]
    simp [envAfter, hget k, hl, strOf, hv]
  · intro k v hl hv
    rw [henv k]
    simp [envAfter, hget k, hl, strOf, hv]
  · intro k hk
    rw [henv k]
    simp [envAfter, hget k, (lastMember_eq_none_iff k kvs).2 hk]

theorem PutEnviron_sets_accepted_witness :
    (Endpoints.PutEnviron Unit 0 ⟨"POST", some "\x7b\"A\":\"1\",\"A=B\":\"x\"\x7d"⟩
      ⟨fun k => if k = "HOME" then some "/root" else none, []⟩).1 = (none, StatusOK) ∧
    (Endpoints.PutEnviron Unit 0 ⟨"POST", some "\x7b\"A\":\"1\",\"A=B\":\"x\"\x7d"⟩
      ⟨fun k => if k = "HOME" then some "/root" else none, []⟩).2.env "A" = some "1" ∧
    (Endpoints.PutEnviron Unit 0 ⟨"POST", some "\x7b\"A\":\"1\",\"A=B\":\"x\"\x7d"⟩
      ⟨fun k => if k = "HOME" then some "/root" else none, []⟩).2.env "A=B" = none ∧
    (Endpoints.PutEnviron Unit 0 ⟨"POST", some "\x7b\"A\":\"1\",\"A=B\":\"x\"\x7d"⟩
      ⟨fun k => if k = "HOME" then some "/root" else none, []⟩).2.env "HOME" =
        some "/root" :=
  have h := PutEnviron_sets_accepted Unit 0 ⟨"POST", some "\x7b\"A\":\"1\",\"A=B\":\"x\"\x7d"⟩
    ⟨fun k => if k = "HOME" then some "/root" else none, []⟩
    "\x7b\"A\":\"1\",\"A=B\":\"x\"\x7d" [("A", JSON.str "1"), ("A=B", JSON.str "x")] rfl rfl
    (by
      intro kv hkv
      simp only [List.mem_cons, List.mem_singleton, List.not_mem_nil, or_false] at hkv
      rcases hkv with h1 | h1
      · exact ⟨"1", by rw [h1]⟩
      · exact ⟨"x", by rw [h1]⟩)
  ⟨h.1, h.2.2.1 "A" "1" rfl (by decide), h.2.2.2.1 "A=B" "x" rfl (by decide),
    h.2.2.2.2 "HOME" (by decide)⟩

/-- C3 (as stated, refuted). On the body `null` the decoder reports no error:
`PutEnviron` returns `(nil, 200)`, not 422. On `{"A":null}`, an object with a
value that is not a string, it returns 200 as well and sets `A` to the empty
string. -/
theorem PutEnviron_null_accepted :
    (Endpoints.PutEnviron Unit 0 ⟨"POST", some "null"⟩ emptyWorld).1 = (none, 200) ∧
    (Endpoints.PutEnviron Unit 0 ⟨"POST", some "null"⟩ emptyWorld).1 ≠
      (none, StatusUnprocessableEntity) ∧
    (Endpoints.PutEnviron Unit 0 ⟨"POST", some "\x7b\"A\":null\x7d"⟩ emptyWorld).1 =
      (none, 200) ∧
    (Endpoints.PutEnviron Unit 0 ⟨"POST", some "\x7b\"A\":null\x7d"⟩ emptyWorld).2.env "A" =
      some "" ∧
    emptyWorld.env "A" = none := by
  refine ⟨?_, ?_, ?_, ?_, ?_⟩ <;> decide

/-- C3 (amended). When the body cannot be read, is not valid JSON, or is a JSON
value other than the literal `null` and other than an object whose values are
all strings or `null` (an array, a string, a number, a boolean, an object with a
number, boolean, array or object as a value), `PutEnviron` returns `(nil, 422)`
and leaves the environment and the bus exactly as they were. -/
theorem PutEnviron_rejects (α : Type) (seed : Nat) (r : Request) (w : World)
    (h : r.Body = none ∨ ∃ body, r.Body = some body ∧
      (parseJSON body = none ∨ ∃ j, parseJSON body = some j ∧ fitsStringMap j = false)) :
    Endpoints.PutEnviron α seed r w = ((none, StatusUnprocessableEntity), w) := by
  rcases h with h | ⟨body, hb, hbad⟩
  · exact PutEnviron_unreadable α seed r w h
  · obtain ⟨e, he⟩ := UnmarshalStringMap_misfit body hbad
    exact PutEnviron_undecodable α seed r w body e hb he

theorem PutEnviron_rejects_witness :
    Endpoints.PutEnviron Unit 0 ⟨"POST", some "\x7b"⟩ emptyWorld =
      ((none, StatusUnprocessableEntity), emptyWorld) ∧
    Endpoints.PutEnviron Unit 0 ⟨"POST", some "[\"A\"]"⟩ emptyWorld =
      ((none, StatusUnprocessableEntity), emptyWorld) ∧
    Endpoints.PutEnviron Unit 0 ⟨"POST", some "\x7b\"A\":1\x7d"⟩ emptyWorld =
      ((none, StatusUnprocessableEntity), emptyWorld) :=
  ⟨PutEnviron_rejects Unit 0 ⟨"POST", some "\x7b"⟩ emptyWorld
      (Or.inr ⟨"\x7b", rfl, Or.inl rfl⟩),
   PutEnviron_rejects Unit 0 ⟨"POST", some "[\"A\"]"⟩ emptyWorld
      (Or.inr ⟨"[\"A\"]", rfl, Or.inr ⟨JSON.arr [JSON.str "A"], rfl, rfl⟩⟩),
   PutEnviron_rejects Unit 0 ⟨"POST", some "\x7b\"A\":1\x7d"⟩ emptyWorld
      (Or.inr ⟨"\x7b\"A\":1\x7d", rfl, Or.inr ⟨JSON.obj [("A", JSON.num "1")], rfl, rfl⟩⟩)⟩

/-- C9. `PutEnviron` is idempotent: called twice in succession with the same
body, whatever order each call visits the entries in, it leaves the environment
a single call leaves and returns what a single call returns. -/
theorem PutEnviron_idempotent (α : Type) (seed1 seed2 seed3 : Nat) (r : Request) (w : World) :
    (Endpoints.PutEnviron α seed2 r (Endpoints.PutEnviron α seed1 r w).2).2.env =
      (Endpoints.PutEnviron α seed3 r w).2.env ∧
    (Endpoints.PutEnviron α seed2 r (Endpoints.PutEnviron α seed1 r w).2).1 =
      (Endpoints.PutEnviron α seed3 r w).1 := by
  cases hb : r.Body with
  | none =>
    simp only [PutEnviron_unreadable α _ r _ hb, and_self]
  | some body =>
    cases hd : UnmarshalStringMap body with
    | error e =>
      simp only [PutEnviron_undecodable α _ r _ body e hb hd, and_self]
    | ok m =>
      constructor
      · funext k
        rw [PutEnviron_decoded_env α seed2 r _ body m hb hd k,
          PutEnviron_decoded_env α seed3 r w body m hb hd k]
        have h1 : (Endpoints.PutEnviron α seed1 r w).2.env = envAfter m w.env := by
          funext k2
          exact PutEnviron_decoded_env α seed1 r w body m hb hd k2
        rw [h1, envAfter_idem]
      · simp only [PutEnviron_decoded α _ r _ body m hb hd]

/-! ## The nesting limit of the decoder -/

theorem parseValue_nested_arrays (k : Nat) :
    ∀ (fuel depth : Nat) (rest : List Char), maxNestingDepth ≤ depth + k →
      parseValue fuel depth (List.replicate (k + 1) '[' ++ rest) = none := by
  have hsp : ∀ xs : List Char, skipSpace ('[' :: xs) = '[' :: xs := fun xs => rfl
  have hne1 : ¬ ('[' = '\x7b') := by decide
  have hne2 : ¬ ('[' = ']') := by decide
  induction k with
  | zero =>
    intro fuel depth rest h
    cases fuel with
    | zero => rw [parseValue]
    | succ f =>
      rw [parseValue]
      simp only [List.replicate_succ, List.cons_append, hsp, if_neg hne1, if_true]
      rw [if_pos (by omega)]
  | succ k ih =>
    intro fuel depth rest h
    cases fuel with
    | zero => rw [parseValue]
    | succ f =>
      rw [parseValue]
      rw [List.replicate_succ, List.cons_append, hsp]
      simp only [if_neg hne1, if_true]
      by_cases hdep : maxNestingDepth ≤ depth
      · rw [if_pos hdep]
      · rw [if_neg hdep]
        have hsp2 : skipSpace (List.replicate (k + 1) '[' ++ rest) =
            '[' :: (List.replicate k '[' ++ rest) := by
          rw [List.replicate_succ, List.cons_append, hsp]
        rw [hsp2]
        simp only [if_neg hne2]
        cases f with
        | zero => rw [parseElements]
        | succ f2 =>
          rw [parseElements]
          have hrep : '[' :: (List.replicate k '[' ++ rest) =
              List.replicate (k + 1) '[' ++ rest := by
            rw [List.replicate_succ, List.cons_append]
          rw [hrep, ih f2 (depth + 1) rest (by omega)]

theorem parseValue_too_deep (k fuel depth : Nat) (rest : List Char) (hk : 0 < k)
    (h : maxNestingDepth < depth + k) :
    parseValue fuel depth (List.replicate k '[' ++ rest) = none := by
  obtain ⟨j, rfl⟩ : ∃ j, k = j + 1 := ⟨k - 1, by omega⟩
  exact parseValue_nested_arrays j fuel depth rest (by omega)

theorem scanString_quote (pending : Option Nat) (acc rest : List Char) :
    scanString pending acc ('"' :: rest) =
      some (String.mk (flushSurrogate pending acc), rest) := by
  unfold scanString
  simp

theorem scanString_a (pending : Option Nat) (acc rest : List Char) :
    scanString pending acc ('a' :: rest) =
      scanString none (flushSurrogate pending acc ++ ['a']) rest := by
  conv => lhs; unfold scanString
  simp

theorem memberKey_a (rest : List Char) :
    memberKey ('"' :: 'a' :: '"' :: ':' :: rest) = some ("a", rest) := by
  unfold memberKey
  simp [skipSpace, isSpace, scanString_a, scanString_quote, flushSurrogate]

theorem object_too_deep (x : List Char) (hx : ∀ fuel, parseValue fuel (0 + 1) x = none) :
    ∀ fuel, parseValue fuel 0 ('\x7b' :: '"' :: 'a' :: '"' :: ':' :: x) = none := by
  intro fuel
  cases fuel with
  | zero => rw [parseValue]
  | succ f =>
    rw [parseValue]
    have hsp : ∀ xs : List Char, skipSpace ('\x7b' :: xs) = '\x7b' :: xs := fun xs => rfl
    have hsp2 : ∀ xs : List Char, skipSpace ('"' :: xs) = '"' :: xs := fun xs => rfl
    have hne : ¬ ('"' = '\x7d') := by decide
    have hdep : ¬ (maxNestingDepth ≤ 0) := by decide
    rw [hsp]
    simp only [if_true, if_neg hdep, hsp2, if_neg hne]
    cases f with
    | zero => rw [parseMembers]
    | succ f2 =>
      rw [parseMembers, memberKey_a]
      simp only
      rw [hx f2]

theorem arrays_too_deep (fuel : Nat) :
    parseValue fuel (0 + 1)
      (List.replicate 10000 '[' ++ (List.replicate 10000 ']' ++ ['\x7d'])) = none :=
  parseValue_too_deep 10000 fuel (0 + 1) _ (by decide) (by decide)

theorem parseJSON_none (text : String) (h : ∀ fuel, parseValue fuel 0 text.data = none) :
    parseJSON text = none := by
  unfold parseJSON
  rw [h]

theorem parseJSON_deepBody : parseJSON deepBody = none :=
  parseJSON_none deepBody (object_too_deep _ arrays_too_deep)

/-! ## The publishing loop of `PostMetric` -/

theorem objectInterface_cons (acc : List (String × GoValue))
    (k1 : String) (x : JSON) (rest : List (String × JSON)) :
    objectInterface acc ((k1, x) :: rest) =
      match valueInterface x with
      | some v => objectInterface (mapAssign k1 v acc) rest
      | none => none := by
  rw [objectInterface]

theorem objectInterface_nodup (kvs : List (String × JSON))
    (acc m : List (String × GoValue)) (h : objectInterface acc kvs = some m)
    (hn : (mapKeys acc).Nodup) : (mapKeys m).Nodup := by
  induction kvs generalizing acc with
  | nil =>
    rw [objectInterface] at h
    cases h
    exact hn
  | cons e rest ih =>
    obtain ⟨k1, x⟩ := e
    rw [objectInterface_cons] at h
    cases hv : valueInterface x with
    | none => simp [hv] at h
    | some v =>
      simp only [hv] at h
      exact ih _ h (nodup_mapKeys_mapAssign _ _ _ hn)

theorem objectInterface_get (kvs : List (String × JSON))
    (acc m : List (String × GoValue)) (k : String)
    (h : objectInterface acc kvs = some m) :
    mapGet m k = match lastMember k kvs with
      | some x => valueInterface x
      | none => mapGet acc k := by
  induction kvs generalizing acc with
  | nil =>
    rw [objectInterface] at h
    cases h
    simp [lastMember]
  | cons e rest ih =>
    obtain ⟨k1, x⟩ := e
    rw [objectInterface_cons] at h
    cases hv : valueInterface x with
    | none => simp [hv] at h
    | some v =>
      simp only [hv] at h
      rw [ih _ h]
      cases hl : lastMember k rest with
      | some y => simp [lastMember, hl]
      | none =>
        by_cases h2 : k1 = k
        · simp [lastMember, hl, h2, mapGet_mapAssign, hv]
        · simp [lastMember, hl, h2, mapGet_mapAssign]

theorem formatSlice_eq (xs : List GoValue) : formatSlice xs = xs.map formatV := by
  induction xs with
  | nil => rw [formatSlice, List.map_nil]
  | cons x xs ih => rw [formatSlice, ih, List.map_cons]

theorem formatEntries_eq (m : List (String × GoValue)) :
    formatEntries m = m.map (fun e => (e.1, formatV e.2)) := by
  induction m with
  | nil => rw [formatEntries, List.map_nil]
  | cons e m ih =>
    obtain ⟨k, x⟩ := e
    rw [formatEntries, ih, List.map_cons]

theorem formatV_slice (xs : List GoValue) :
    formatV (GoValue.slice xs) = "[" ++ " ".intercalate (xs.map formatV) ++ "]" := by
  rw [formatV, formatSlice_eq]

theorem formatV_map (m : List (String × GoValue)) :
    formatV (GoValue.map m) =
      "map[" ++ " ".intercalate
        ((List.insertionSort (fun a b : String × GoValue => a.1.data ≤ b.1.data) m).map
          (fun e => e.1 ++ ":" ++ formatV e.2)) ++ "]" := by
  rw [formatV, formatEntries_eq]
  have hs := List.map_insertionSort
    (fun a b : String × GoValue => a.1.data ≤ b.1.data)
    (fun a b : String × String => a.1.data ≤ b.1.data)
    (fun e : String × GoValue => (e.1, formatV e.2)) m (fun a _ b _ => Iff.rfl)
  rw [← hs, List.map_map]
  rfl

theorem publishStep_eq (w : World) (e : String × GoValue) :
    publishStep w e =
      ⟨w.env, w.bus ++ [BusCall.Publish ⟨EventCode.Metric, e.1 ++ "|" ++ formatV e.2⟩]⟩ :=
  rfl

theorem foldl_publishStep (l : List (String × GoValue)) (w : World) :
    l.foldl publishStep w =
      ⟨w.env, w.bus ++ l.map (fun e =>
        BusCall.Publish ⟨EventCode.Metric, e.1 ++ "|" ++ formatV e.2⟩)⟩ := by
  induction l generalizing w with
  | nil => simp
  | cons e l ih =>
    rw [List.foldl_cons, ih, publishStep_eq]
    simp

theorem PostMetric_decoded (α : Type) (seed : Nat)
    (r : Request) (w : World) (body : String) (m : List (String × GoValue))
    (hb : r.Body = some body) (hd : UnmarshalInterfaceMap body = .ok m) :
    Endpoints.PostMetric α seed r w =
      ((none, StatusOK), ⟨w.env, w.bus ++ (rangeOrder seed m).map (fun e =>
        BusCall.Publish ⟨EventCode.Metric, e.1 ++ "|" ++ formatV e.2⟩)⟩) := by
  simp only [Endpoints.PostMetric, hb, hd, foldl_publishStep]

theorem PostMetric_unreadable (α : Type) (seed : Nat)
    (r : Request) (w : World) (hb : r.Body = none) :
    Endpoints.PostMetric α seed r w = ((none, StatusUnprocessableEntity), w) := by
  simp only [Endpoints.PostMetric, hb]

theorem PostMetric_undecodable (α : Type) (seed : Nat)
    (r : Request) (w : World) (body : String) (e : UnmarshalError)
    (hb : r.Body = some body) (hd : UnmarshalInterfaceMap body = .error e) :
    Endpoints.PostMetric α seed r w = ((none, StatusUnprocessableEntity), w) := by
  simp only [Endpoints.PostMetric, hb, hd]

/-! ## Properties of `PostMetric` and `PostReload` -/

/-- C4. When the body decodes as a JSON object, `PostMetric` returns `(nil, 200)`,
leaves the environment alone and appends to the calls on the bus exactly one
`Publish` per entry of the decoded map, in some order of the entries: an event of
kind Metric whose payload is the key, then `|`, then the `%v` rendering of the
value. The entries of the decoded map have distinct keys, and each key carries
the decoded value of its last member in the body. The rendering is `<nil>` for
null, `true` or `false`, the string itself, `[v v]` for an array, `map[k:v k:v]`
in increasing order of the keys for an object, and the shortest float64 decimal
for a number; the bodies at the end show it on each kind of value. -/
theorem PostMetric_publishes (α : Type) (seed : Nat)
    (r : Request) (w : World) (body : String) (kvs : List (String × JSON))
    (m : List (String × GoValue)) (hb : r.Body = some body)
    (hp : parseJSON body = some (JSON.obj kvs))
    (hd : UnmarshalInterfaceMap body = .ok m) :
    (Endpoints.PostMetric α seed r w).1 = (none, StatusOK) ∧
    (Endpoints.PostMetric α seed r w).2.env = w.env ∧
    (∃ order : List (String × GoValue), order.Perm m ∧
      (Endpoints.PostMetric α seed r w).2.bus =
        w.bus ++ order.map (fun e =>
          BusCall.Publish ⟨EventCode.Metric, e.1 ++ "|" ++ formatV e.2⟩)) ∧
    (mapKeys m).Nodup ∧
    (∀ k, mapGet m k = (lastMember k kvs).bind valueInterface) ∧
    formatV GoValue.nil = "<nil>" ∧
    formatV (GoValue.bool true) = "true" ∧
    formatV (GoValue.bool false) = "false" ∧
    (∀ s, formatV (GoValue.string s) = s) ∧
    (∀ xs, formatV (GoValue.slice xs) = "[" ++ " ".intercalate (xs.map formatV) ++ "]") ∧
    (∀ es, formatV (GoValue.map es) =
      "map[" ++ " ".intercalate
        ((List.insertionSort (fun a b : String × GoValue => a.1.data ≤ b.1.data) es).map
          (fun e => e.1 ++ ":" ++ formatV e.2)) ++ "]") ∧
    (Endpoints.PostMetric Unit 0
      ⟨"POST", some "\x7b\"cpu\":42,\"mem\":\"low\"\x7d"⟩ emptyWorld).2.bus =
      [BusCall.Publish ⟨EventCode.Metric, "cpu|42"⟩,
        BusCall.Publish ⟨EventCode.Metric, "mem|low"⟩] ∧
    (Endpoints.PostMetric Unit 0 ⟨"POST", some
      "\x7b\"n\":7,\"a\":[1,\"x\",null,true,[2.5,[]]],\"d\":\x7b\"y\":false,\"x\":[],\"ab\":\x7b\"k\":\"v\"\x7d\x7d,\"e\":\x7b\x7d,\"n\":1000000\x7d"⟩
      emptyWorld).2.bus =
      [BusCall.Publish ⟨EventCode.Metric, "n|1e+06"⟩,
        BusCall.Publish ⟨EventCode.Metric, "a|[1 x <nil> true [2.5 []]]"⟩,
        BusCall.Publish ⟨EventCode.Metric, "d|map[ab:map[k:v] x:[] y:false]"⟩,
        BusCall.Publish ⟨EventCode.Metric, "e|map[]"⟩] ∧
    (Endpoints.PostMetric Unit 0 ⟨"POST", some
      "\x7b\"f\":0.1,\"big\":12345678901234567890,\"neg\":-0.00001,\"s\":\"a b\",\"t\":true,\"z\":null\x7d"⟩
      emptyWorld).2.bus =
      [BusCall.Publish ⟨EventCode.Metric, "f|0.1"⟩,
        BusCall.Publish ⟨EventCode.Metric, "big|1.2345678901234567e+19"⟩,
        BusCall.Publish ⟨EventCode.Metric, "neg|-1e-05"⟩,
        BusCall.Publish ⟨EventCode.Metric, "s|a b"⟩,
        BusCall.Publish ⟨EventCode.Metric, "t|true"⟩,
        BusCall.Publish ⟨EventCode.Metric, "z|<nil>"⟩] ∧
    (Endpoints.PostMetric Unit 0 ⟨"POST", some
      "\x7b\"i\":100000,\"j\":1234567,\"k\":0.0001,\"l\":1e21,\"m\":-0,\"o\":1.5\x7d"⟩
      emptyWorld).2.bus =
      [BusCall.Publish ⟨EventCode.Metric, "i|100000"⟩,
        BusCall.Publish ⟨EventCode.Metric, "j|1.234567e+06"⟩,
        BusCall.Publish ⟨EventCode.Metric, "k|0.0001"⟩,
        BusCall.Publish ⟨EventCode.Metric, "l|1e+21"⟩,
        BusCall.Publish ⟨EventCode.Metric, "m|-0"⟩,
        BusCall.Publish ⟨EventCode.Metric, "o|1.5"⟩] ∧
    (Endpoints.PostMetric Unit 0 ⟨"POST", some
      "\x7b\"p\":2.5e-3,\"q\":1.7976931348623157e308,\"u\":5e-324,\"v\":1e-400,\"w\":0.30000000000000004,\"x\":9007199254740993\x7d"⟩
      emptyWorld).2.bus =
      [BusCall.Publish ⟨EventCode.Metric, "p|0.0025"⟩,
        BusCall.Publish ⟨EventCode.Metric, "q|1.7976931348623157e+308"⟩,
        BusCall.Publish ⟨EventCode.Metric, "u|5e-324"⟩,
        BusCall.Publish ⟨EventCode.Metric, "v|0"⟩,
        BusCall.Publish ⟨EventCode.Metric, "w|0.30000000000000004"⟩,
        BusCall.Publish ⟨EventCode.Metric, "x|9.007199254740992e+15"⟩] := by
  have hm : objectInterface [] kvs = some m := by
    unfold UnmarshalInterfaceMap at hd
    simp only [hp] at hd
    cases ho : objectInterface [] kvs with
    | none => simp [ho] at hd
    | some m2 =>
      simp only [ho, Except.ok.injEq] at hd
      rw [hd]
  rw [PostMetric_decoded α seed r w body m hb hd]
  refine ⟨rfl, rfl, ⟨rangeOrder seed m, rangeOrder_perm seed m, rfl⟩, ?_, ?_, rfl, rfl, rfl,
    fun _ => rfl, formatV_slice, formatV_map, ?_, ?_, ?_, ?_, ?_⟩
  · exact objectInterface_nodup kvs [] m hm (by simp [mapKeys])
  · intro k
    rw [objectInterface_get kvs [] m k hm]
    cases lastMember k kvs <;> simp [mapGet]
  · decide!
  · decide!
  · decide!
  · decide!
  · decide!

theorem PostMetric_publishes_witness :
    (Endpoints.PostMetric Unit 1
      ⟨"POST", some "\x7b\"cpu\":42,\"mem\":\"low\"\x7d"⟩ emptyWorld).1 = (none, StatusOK) ∧
    (∃ order : List (String × GoValue),
      order.Perm [("cpu", GoValue.float64 ⟨false, 5910974510923776, -47⟩),
        ("mem", GoValue.string "low")] ∧
      (Endpoints.PostMetric Unit 1
        ⟨"POST", some "\x7b\"cpu\":42,\"mem\":\"low\"\x7d"⟩ emptyWorld).2.bus =
        emptyWorld.bus ++ order.map (fun e =>
          BusCall.Publish ⟨EventCode.Metric, e.1 ++ "|" ++ formatV e.2⟩)) ∧
    (Endpoints.PostMetric Unit 1
      ⟨"POST", some "\x7b\"cpu\":42,\"mem\":\"low\"\x7d"⟩ emptyWorld).2.bus =
      [BusCall.Publish ⟨EventCode.Metric, "mem|low"⟩,
        BusCall.Publish ⟨EventCode.Metric, "cpu|42"⟩] :=
  have hd : UnmarshalInterfaceMap "\x7b\"cpu\":42,\"mem\":\"low\"\x7d" =
      .ok [("cpu", GoValue.float64 ⟨false, 5910974510923776, -47⟩),
        ("mem", GoValue.string "low")] := rfl
  have h := PostMetric_publishes Unit 1
    ⟨"POST", some "\x7b\"cpu\":42,\"mem\":\"low\"\x7d"⟩ emptyWorld
    "\x7b\"cpu\":42,\"mem\":\"low\"\x7d"
    [("cpu", JSON.num "42"), ("mem", JSON.str "low")]
    [("cpu", GoValue.float64 ⟨false, 5910974510923776, -47⟩),
      ("mem", GoValue.string "low")] rfl rfl hd
  ⟨h.1, h.2.2.1, by decide!⟩

/-- C5. When the body cannot be read, is not valid JSON, or fails in any other
way to decode into the string-keyed map, `PostMetric` returns `(nil, 422)` and
leaves the world as it was: no `Publish` call is made, the calls on the bus are
the same list as before. -/
theorem PostMetric_rejects (α : Type) (seed : Nat)
    (r : Request) (w : World)
    (h : r.Body = none ∨ ∃ body, r.Body = some body ∧
      (parseJSON body = none ∨ ∃ e, UnmarshalInterfaceMap body = .error e)) :
    Endpoints.PostMetric α seed r w = ((none, StatusUnprocessableEntity), w) ∧
    (Endpoints.PostMetric α seed r w).2.bus = w.bus := by
  have key : Endpoints.PostMetric α seed r w = ((none, StatusUnprocessableEntity), w) := by
    rcases h with h | ⟨body, hb, hbad | ⟨e, he⟩⟩
    · exact PostMetric_unreadable α seed r w h
    · exact PostMetric_undecodable α seed r w body .SyntaxError hb
        (by simp [UnmarshalInterfaceMap, hbad])
    · exact PostMetric_undecodable α seed r w body e hb he
  rw [key]
  exact ⟨rfl, rfl⟩

set_option exponentiation.threshold 2000 in
set_option maxRecDepth 100000 in
theorem PostMetric_rejects_witness :
    Endpoints.PostMetric Unit 0 ⟨"POST", some "\x7b"⟩ emptyWorld =
      ((none, StatusUnprocessableEntity), emptyWorld) ∧
    Endpoints.PostMetric Unit 0 ⟨"POST", none⟩ emptyWorld =
      ((none, StatusUnprocessableEntity), emptyWorld) ∧
    Endpoints.PostMetric Unit 0 ⟨"POST", some "[1]"⟩ emptyWorld =
      ((none, StatusUnprocessableEntity), emptyWorld) ∧
    Endpoints.PostMetric Unit 0 ⟨"POST", some "\x7b\"n\":1e400\x7d"⟩ emptyWorld =
      ((none, StatusUnprocessableEntity), emptyWorld) ∧
    Endpoints.PostMetric Unit 0 ⟨"POST", some deepBody⟩ emptyWorld =
      ((none, StatusUnprocessableEntity), emptyWorld) :=
  ⟨(PostMetric_rejects Unit 0 ⟨"POST", some "\x7b"⟩ emptyWorld
      (Or.inr ⟨"\x7b", rfl, Or.inl rfl⟩)).1,
   (PostMetric_rejects Unit 0 ⟨"POST", none⟩ emptyWorld (Or.inl rfl)).1,
   (PostMetric_rejects Unit 0 ⟨"POST", some "[1]"⟩ emptyWorld
      (Or.inr ⟨"[1]", rfl, Or.inr ⟨.UnmarshalTypeError, rfl⟩⟩)).1,
   (PostMetric_rejects Unit 0 ⟨"POST", some "\x7b\"n\":1e400\x7d"⟩ emptyWorld
      (Or.inr ⟨"\x7b\"n\":1e400\x7d", rfl, Or.inr ⟨.UnmarshalTypeError, rfl⟩⟩)).1,
   (PostMetric_rejects Unit 0 ⟨"POST", some deepBody⟩ emptyWorld
      (Or.inr ⟨deepBody, rfl, Or.inl parseJSON_deepBody⟩)).1⟩

/-- C6. For every request, readable body or not, `PostReload` returns `(nil, 200)`,
never 422; it appends to the calls on the bus one `SetReloadFlag` and then one
`Shutdown`, nothing else (no `Publish`), and leaves the environment as it was. -/
theorem PostReload_calls (α : Type) (r : Request) (w : World) :
    (Endpoints.PostReload α r w).1 = (none, StatusOK) ∧
    (Endpoints.PostReload α r w).1.2 ≠ StatusUnprocessableEntity ∧
    (Endpoints.PostReload α r w).2.bus =
      w.bus ++ [BusCall.SetReloadFlag, BusCall.Shutdown] ∧
    (Endpoints.PostReload α r w).2.env = w.env := by
  have h422 : StatusOK ≠ StatusUnprocessableEntity := by decide
  refine ⟨rfl, h422, ?_, rfl⟩
  simp [Endpoints.PostReload]

/-! ## The endpoints behind the adapter -/

theorem ServeHTTP_post_nil {σ α : Type} (marshal : α → Option String)
    (pw : PostHandler σ α) (r : Request) (s : σ) (hm : r.Method = MethodPost)
    (h : (pw r s).1 = (none, StatusOK)) :
    (PostHandler.ServeHTTP marshal pw ResponseWriter.fresh r s).1 = emptyOK := by
  have h1 : (pw r s).1.1 = none := by rw [h]
  have h2 : (pw r s).1.2 = StatusOK := by rw [h]
  have e2 : (ResponseWriter.fresh.WriteHeader StatusOK).Write "\n" = emptyOK := by decide
  simp [PostHandler.ServeHTTP, hm, h1, h2, e2]

theorem ServeHTTP_post_unprocessable {σ α : Type} (marshal : α → Option String)
    (pw : PostHandler σ α) (r : Request) (s : σ) (hm : r.Method = MethodPost)
    (h : (pw r s).1 = (none, StatusUnprocessableEntity)) :
    (PostHandler.ServeHTTP marshal pw ResponseWriter.fresh r s).1 = unprocessable := by
  have h2 : (pw r s).1.2 = StatusUnprocessableEntity := by rw [h]
  have h3 : (pw r s).1.2 ≠ StatusOK := by
    rw [h2]
    decide
  have h4 : Error ResponseWriter.fresh (StatusText StatusUnprocessableEntity)
      StatusUnprocessableEntity = unprocessable := by decide
  rw [ServeHTTP_post_status marshal pw r s hm h3, h2]
  exact h4

theorem PutEnviron_result (α : Type) (seed : Nat) (r : Request) (w : World) :
    (Endpoints.PutEnviron α seed r w).1 = (none, StatusOK) ∨
    (Endpoints.PutEnviron α seed r w).1 = (none, StatusUnprocessableEntity) := by
  cases hb : r.Body with
  | none => exact Or.inr (by rw [PutEnviron_unreadable α seed r w hb])
  | some body =>
    cases hd : UnmarshalStringMap body with
    | error e => exact Or.inr (by rw [PutEnviron_undecodable α seed r w body e hb hd])
    | ok m => exact Or.inl (by rw [PutEnviron_decoded α seed r w body m hb hd])

theorem PostMetric_result (α : Type) (seed : Nat)
    (r : Request) (w : World) :
    (Endpoints.PostMetric α seed r w).1 = (none, StatusOK) ∨
    (Endpoints.PostMetric α seed r w).1 = (none, StatusUnprocessableEntity) := by
  cases hb : r.Body with
  | none => exact Or.inr (by rw [PostMetric_unreadable α seed r w hb])
  | some body =>
    cases hd : UnmarshalInterfaceMap body with
    | error e => exact Or.inr (by rw [PostMetric_undecodable α seed r w body e hb hd])
    | ok m => exact Or.inl (by rw [PostMetric_decoded α seed r w body m hb hd])

/-- C10. Behind the adapter, on a POST request, `PutEnviron` and `PostMetric`
answer either with status 200 and the body of one newline or with status 422 and
the body "Unprocessable Entity" and a newline, and `PostReload` always answers
with status 200 and the body of one newline. The payload of all three handlers
is nil, so the adapter never encodes JSON for them. -/
theorem endpoints_responses (α : Type) (marshal : α → Option String)
    (seed : Nat) (r : Request) (w : World)
    (hm : r.Method = MethodPost) :
    ((PostHandler.ServeHTTP marshal (Endpoints.PutEnviron α seed) ResponseWriter.fresh
        r w).1 = { header := [], code := some 200, body := "\n" } ∨
      (PostHandler.ServeHTTP marshal (Endpoints.PutEnviron α seed) ResponseWriter.fresh
        r w).1 = unprocessable) ∧
    ((PostHandler.ServeHTTP marshal (Endpoints.PostMetric α seed) ResponseWriter.fresh
        r w).1 = { header := [], code := some 200, body := "\n" } ∨
      (PostHandler.ServeHTTP marshal (Endpoints.PostMetric α seed) ResponseWriter.fresh
        r w).1 = unprocessable) ∧
    (PostHandler.ServeHTTP marshal (Endpoints.PostReload α) ResponseWriter.fresh r w).1 =
      { header := [], code := some 200, body := "\n" } ∧
    unprocessable.code = some 422 ∧ unprocessable.body = "Unprocessable Entity\n" ∧
    (Endpoints.PutEnviron α seed r w).1.1 = none ∧
    (Endpoints.PostMetric α seed r w).1.1 = none ∧
    (Endpoints.PostReload α r w).1.1 = none := by
  refine ⟨?_, ?_, ?_, rfl, rfl, ?_, ?_, rfl⟩
  · rcases PutEnviron_result α seed r w with h | h
    · exact Or.inl (ServeHTTP_post_nil marshal _ r w hm h)
    · exact Or.inr (ServeHTTP_post_unprocessable marshal _ r w hm h)
  · rcases PostMetric_result α seed r w with h | h
    · exact Or.inl (ServeHTTP_post_nil marshal _ r w hm h)
    · exact Or.inr (ServeHTTP_post_unprocessable marshal _ r w hm h)
  · exact ServeHTTP_post_nil marshal (Endpoints.PostReload α) r w hm rfl
  · rcases PutEnviron_result α seed r w with h | h <;> rw [h]
  · rcases PostMetric_result α seed r w with h | h <;> rw [h]

theorem endpoints_responses_witness :
    "POST" = MethodPost ∧
    (PostHandler.ServeHTTP (fun v : String => some v) (Endpoints.PostReload String)
      ResponseWriter.fresh ⟨"POST", some "\x7b\x7d"⟩ emptyWorld).1 = { header := [], code := some 200, body := "\n" } ∧
    (Endpoints.PutEnviron String 0 ⟨"POST", some "\x7b\x7d"⟩ emptyWorld).1.1 = none :=
  ⟨by decide,
   (endpoints_responses String (fun v => some v) 0 ⟨"POST", some "\x7b\x7d"⟩
      emptyWorld (by decide)).2.2.1,
   (endpoints_responses String (fun v => some v) 0 ⟨"POST", some "\x7b\x7d"⟩
      emptyWorld (by decide)).2.2.2.2.2.1⟩

end Control
